import Mathlib

/-!
Shallow embedding of the collection-utility module of the belle repository
(`src/components/Option.js`, helper section "based on Underscore.js").

Modelling conventions:

* A JavaScript value is a `Value`: `undef`, `null`, booleans, numbers
  (modelled as `Int`; the module only ever produces and compares integral
  numbers), strings, true arrays (`arr`), and plain data objects (`obj`,
  an association list of own enumerable string keys in insertion order,
  assumed duplicate-free where stated).  Function-valued properties are not
  representable; `obj` stands for plain data objects, which in particular
  never have their own `forEach` method.
* JavaScript strict equality `===` is `strictEq`.  On primitives it is value
  equality; arrays and objects compare by reference in JavaScript, and since
  every `Value` tree in this embedding stands for a freshly constructed
  object graph (the type cannot express aliasing), two composite values are
  never strictly equal.
* A predicate argument is a `Predicate`: either a genuine function (`jsfn`,
  a Lean function from the argument list to the returned value; the
  `context`/`this` binding of the source is irrelevant to results and is
  assumed captured inside the Lean function), or any non-function value
  (`notfn`), including `undefined` for an absent argument.
* Fallible computations run in `Except String`; a thrown `TypeError` is an
  `Except.error`.  Predicate invocations are additionally logged in a
  `CallLog` (the list of argument lists, in call order), threaded through
  explicitly, so that theorems can speak about which calls happen and in
  which order.
-/

inductive Value : Type where
  | undef : Value
  | null : Value
  | bool : Bool → Value
  | num : Int → Value
  | str : String → Value
  | arr : List Value → Value
  | obj : List (String × Value) → Value
deriving Repr

/-- JavaScript truthiness: `undefined`, `null`, `false`, `0` and `""` are
falsy; every array and object (even empty) is truthy. -/
def truthy : Value → Bool
  | .undef => false
  | .null => false
  | .bool b => b
  | .num n => n != 0
  | .str s => s != ""
  | .arr _ => true
  | .obj _ => true

/-- JavaScript strict equality `===` (see the header: composite values are
reference-compared in JavaScript and never equal here). -/
def strictEq : Value → Value → Bool
  | .undef, .undef => true
  | .null, .null => true
  | .bool a, .bool b => a == b
  | .num a, .num b => a == b
  | .str a, .str b => a == b
  | _, _ => false

/-- `Array.isArray`. -/
def isArray : Value → Bool
  | .arr _ => true
  | _ => false

/-- First binding of a key in an object's own-field list. -/
def lookupField (fs : List (String × Value)) (key : String) : Option Value :=
  (fs.find? (fun kv => kv.1 == key)).map (fun kv => kv.2)

/-- Property read `v.length`, which throws on `undefined`/`null` and yields
`undefined` on primitives without the property. -/
def getLength : Value → Except String Value
  | .undef => .error "TypeError: Cannot read properties of undefined"
  | .null => .error "TypeError: Cannot read properties of null"
  | .bool _ => .ok .undef
  | .num _ => .ok .undef
  | .str s => .ok (.num s.length)
  | .arr xs => .ok (.num xs.length)
  | .obj fs => .ok ((lookupField fs "length").getD .undef)

/--
`isArrayLike(obj)` from the source:

    if (Array.isArray(obj)) return true;
    if (typeof obj === 'string') return false;
    const length = obj.length;
    return typeof length === 'number' && length >= 0;
-/
def isArrayLike (obj : Value) : Except String Bool :=
  if isArray obj then .ok true
  else if (match obj with | .str _ => true | _ => false) then .ok false
  else
    match getLength obj with
    | .error e => .error e
    | .ok (.num n) => .ok (decide (0 ≤ n))
    | .ok _ => .ok false

/-- The Boolean that `isArrayLike` computes on values where it does not
throw (every truthy value, in particular). -/
def arrayLikeB : Value → Bool
  | .arr _ => true
  | .obj fs =>
      match lookupField fs "length" with
      | some (.num n) => decide (0 ≤ n)
      | _ => false
  | _ => false

theorem isArrayLike_of_truthy (v : Value) (h : truthy v = true) :
    isArrayLike v = .ok (arrayLikeB v) := by
  cases v with
  | undef => simp [truthy] at h
  | null => simp [truthy] at h
  | bool b =>
      cases b with
      | false => simp [truthy] at h
      | true => rfl
  | num n => rfl
  | str s => rfl
  | arr xs => rfl
  | obj fs =>
      cases hl : lookupField fs "length" with
      | none => simp [isArrayLike, isArray, getLength, hl, arrayLikeB]
      | some lv => cases lv <;> simp [isArrayLike, isArray, getLength, hl, arrayLikeB]

/-- Property read `v[key]` with a string key, on values where member access
cannot throw (the source only reads members of values already known to be
truthy).  JavaScript string/array index properties are keyed by the decimal
numeral of the index. -/
def getMember (v : Value) (key : String) : Value :=
  match v with
  | .str s =>
      if key == "length" then .num s.length
      else
        match (List.range s.length).find? (fun i => toString i == key) with
        | some i => .str (String.mk [s.data.getD i ' '])
        | none => .undef
  | .arr xs =>
      if key == "length" then .num xs.length
      else
        match (List.range xs.length).find? (fun i => toString i == key) with
        | some i => xs.getD i .undef
        | none => .undef
  | .obj fs => (lookupField fs key).getD .undef
  | _ => (.undef)

/-- Indexed read `v[i]` with a numeric index (a JavaScript numeric index is
coerced to its decimal-numeral string key on plain objects). -/
def getIndex (v : Value) (i : Nat) : Value :=
  match v with
  | .arr xs => xs.getD i .undef
  | .obj fs => (lookupField fs (toString i)).getD .undef
  | .str s => if i < s.length then .str (String.mk [s.data.getD i ' ']) else .undef
  | _ => (.undef)

/-- The own enumerable keys a `for...in` loop visits, in order: object
fields in insertion order; index keys for arrays and strings; nothing for
primitives, `undefined` and `null`. -/
def jsKeys : Value → List String
  | .obj fs => fs.map (fun kv => kv.1)
  | .arr xs => (List.range xs.length).map (fun i => toString i)
  | .str s => (List.range s.length).map (fun i => toString i)
  | _ => []

/-- `Object.prototype.hasOwnProperty.call(v, key)`. -/
def hasOwn : Value → String → Bool
  | .obj fs, key => fs.any (fun kv => kv.1 == key)
  | .arr xs, key => key == "length" || (List.range xs.length).any (fun i => toString i == key)
  | .str s, key => key == "length" || (List.range s.length).any (fun i => toString i == key)
  | _, _ => false

/--
`has(obj, key)` from the source:

    return obj !== undefined && obj !== null
        && Object.prototype.hasOwnProperty.call(obj, key);
-/
def has (obj : Value) (key : String) : Bool :=
  match obj with
  | .undef => false
  | .null => false
  | v => hasOwn v key

/--
`keys(obj)` from the source:

    const objKeys = [];
    for (const key in obj) if (has(obj, key)) objKeys.push(key);
    return objKeys;
-/
def keys (obj : Value) : List String :=
  (jsKeys obj).filter (fun key => has obj key)

/-- Every key that `for...in` visits is an own property, so the `has` filter
inside `keys` keeps everything. -/
theorem keys_eq_jsKeys (obj : Value) : keys obj = jsKeys obj := by
  rw [keys, List.filter_eq_self]
  intro key hk
  cases obj with
  | obj fs =>
      simp only [jsKeys, List.mem_map] at hk
      obtain ⟨kv, hkv, rfl⟩ := hk
      show (fs.any fun kv2 => kv2.1 == kv.1) = true
      exact List.any_eq_true.mpr ⟨kv, hkv, by simp⟩
  | arr xs =>
      simp only [jsKeys, List.mem_map] at hk
      obtain ⟨i, hi, rfl⟩ := hk
      show (toString i == "length" || (List.range xs.length).any fun j => toString j == toString i) = true
      simp only [Bool.or_eq_true, List.any_eq_true]
      right
      exact ⟨i, hi, by simp⟩
  | str s =>
      simp only [jsKeys, List.mem_map] at hk
      obtain ⟨i, hi, rfl⟩ := hk
      show (toString i == "length" || (List.range s.length).any fun j => toString j == toString i) = true
      simp only [Bool.or_eq_true, List.any_eq_true]
      right
      exact ⟨i, hi, by simp⟩
  | undef => simp [jsKeys] at hk
  | null => simp [jsKeys] at hk
  | bool b => simp [jsKeys] at hk
  | num n => simp [jsKeys] at hk

/--
`isEmpty(iterable)` from the source: `return !iterable || iterable.length === 0;`
(the member read is guarded by truthiness, so it never throws). -/
def isEmpty (iterable : Value) : Bool :=
  !truthy iterable || strictEq (getMember iterable "length") (.num 0)

/-- The number of loop iterations `index < source.length` performs on a
truthy array-like source (array length, or the value of a non-negative
numeric `length` field). -/
def sourceLen : Value → Nat
  | .arr xs => xs.length
  | .obj fs =>
      match lookupField fs "length" with
      | some (.num n) => n.toNat
      | _ => 0
  | .str s => s.length
  | _ => 0

/-- The `source` local of `find`/`findIndex`/`some`/`size`: the iterable
itself when array-like, else the one-element wrapping `[iterable]`. -/
def normalizeSrc (iterable : Value) : Value :=
  if arrayLikeB iterable then iterable else .arr [iterable]

/-- A predicate argument: a real function, or a non-function value used in
predicate position (`notfn .undef` is an absent argument). -/
inductive Predicate : Type where
  | jsfn : (List Value → Value) → Predicate
  | notfn : Value → Predicate

/-- The log of predicate invocations: each entry is one call's argument
list, in call order. -/
abbrev CallLog := List (List Value)

/-- The truthiness test a guard like `if (predicate && ...)` applies to the
predicate argument: functions are truthy. -/
def predTruthy : Predicate → Bool
  | .jsfn _ => true
  | .notfn v => truthy v

/-- `predicate.call(context, ...args)`: invoking a non-function throws; a
successful call is appended to the log.  The `context` binding does not
influence any result in this module and is captured inside the Lean
function. -/
def predCall (p : Predicate) (args : List Value) (log : CallLog) :
    Except String (Value × CallLog) :=
  match p with
  | .jsfn f => .ok (f args, log ++ [args])
  | .notfn _ => .error "TypeError: predicate.call is not a function"

/-- `String.prototype.indexOf` scan: the least position of `k` as a
substring of the receiver, else `-1`. -/
def strIndexOfAux (k : List Char) : List Char → Nat → Int
  | [], i => if k.isEmpty then Int.ofNat i else -1
  | c :: rest, i =>
      if k.isPrefixOf (c :: rest) then Int.ofNat i
      else strIndexOfAux k rest (i + 1)

/-- `s.indexOf(key)` for strings (substring search). -/
def strIndexOf (s key : String) : Int :=
  strIndexOfAux key.data s.data 0

/-- The scan of `Array.prototype.indexOf`: first index from `i` whose
element is strictly equal (`===`) to `v`, else `-1`. -/
def listIndexOfAux (v : Value) : List Value → Nat → Int
  | [], _ => -1
  | x :: rest, i => if strictEq x v then Int.ofNat i else listIndexOfAux v rest (i + 1)

/-- `xs.indexOf(v)` for arrays. -/
def listIndexOf (xs : List Value) (v : Value) : Int :=
  listIndexOfAux v xs 0

/-- `fields.indexOf(key)` as `omit` performs it: substring search when
`fields` is a string, element search when it is an array, and a thrown
`TypeError` on any other truthy value (no `indexOf` method). -/
def jsIndexOf (fields : Value) (key : String) : Except String Int :=
  match fields with
  | .str s => .ok (strIndexOf s key)
  | .arr xs => .ok (listIndexOf xs (.str key))
  | _ => .error "TypeError: fields.indexOf is not a function"

/-- The `for (const key in obj)` walk of `omit`, with its
`obj.hasOwnProperty(key) && (!fields || fields.indexOf(key) < 0)` guard:
keys that pass are copied with their values, in key order. -/
def omitKeys (obj fields : Value) : List String → Except String (List (String × Value))
  | [] => .ok []
  | key :: rest =>
      match (if truthy fields then
               match jsIndexOf fields key with
               | .error e => .error e
               | .ok idx => .ok (decide (idx < 0))
             else .ok true : Except String Bool) with
      | .error e => .error e
      | .ok keep =>
          match omitKeys obj fields rest with
          | .error e => .error e
          | .ok tail => .ok (if keep then (key, getMember obj key) :: tail else tail)

/--
`omit(obj, fields)` from the source (named `omitJs`: `omit` is a Lean keyword):

    if (obj) {
      const result = {};
      for (const key in obj) {
        if (obj.hasOwnProperty(key) && (!fields || fields.indexOf(key) < 0)) {
          result[key] = obj[key];
        }
      }
      return result;
    }
-/
def omitJs (obj fields : Value) : Except String Value :=
  if truthy obj then
    match omitKeys obj fields ((jsKeys obj).filter (fun key => hasOwn obj key)) with
    | .error e => .error e
    | .ok result => .ok (.obj result)
  else .ok (.undef)

/-- The `obj.forEach(elm => predicate.call(context, elm))` loop of `each`
over a true array's elements. -/
def eachArr (predicate : Predicate) : List Value → CallLog → Except String CallLog
  | [], log => .ok log
  | elm :: rest, log =>
      match predCall predicate [elm] log with
      | .error e => .error e
      | .ok (_, log2) => eachArr predicate rest log2

/--
`each(obj, predicate, context)` from the source:

    if (obj) {
      if (isArrayLike(obj)) {
        obj.forEach((elm) => { predicate.call(context, elm); });
      } else {
        predicate.call(context, obj);
      }
    }

An array-like value that is not a true array (e.g. `{length: 0}`) has no
`forEach` method, so the call throws. -/
def each (obj : Value) (predicate : Predicate) (log : CallLog) :
    Except String (Value × CallLog) :=
  if truthy obj then
    match isArrayLike obj with
    | .error e => .error e
    | .ok true =>
        match obj with
        | .arr xs =>
            match eachArr predicate xs log with
            | .error e => .error e
            | .ok log2 => .ok (.undef, log2)
        | _ => .error "TypeError: obj.forEach is not a function"
    | .ok false =>
        match predCall predicate [obj] log with
        | .error e => .error e
        | .ok (_, log2) => .ok (.undef, log2)
  else .ok (.undef, log)

/-- The traversal of `filter`: `each`'s iteration with the closure
`obj => { if (predicate && predicate.call(context, obj)) result.push(obj) }`
inlined, accumulating the pushed elements. -/
def filterEach (predicate : Predicate) : List Value → List Value → CallLog →
    Except String (List Value × CallLog)
  | result, [], log => .ok (result, log)
  | result, obj :: rest, log =>
      if predTruthy predicate then
        match predCall predicate [obj] log with
        | .error e => .error e
        | .ok (r, log2) =>
            filterEach predicate (if truthy r then result ++ [obj] else result) rest log2
      else filterEach predicate result rest log

/--
`filter(iterable, predicate, context)` from the source: `undefined` on falsy
input, otherwise `result = []` followed by `each` with the pushing closure.
The `each` dispatch (forEach on a true array, a thrown `TypeError` on an
array-like non-array, a single closure call otherwise) is inlined. -/
def filter (iterable : Value) (predicate : Predicate) (log : CallLog) :
    Except String (Value × CallLog) :=
  if truthy iterable then
    match isArrayLike iterable with
    | .error e => .error e
    | .ok true =>
        match iterable with
        | .arr xs =>
            match filterEach predicate [] xs log with
            | .error e => .error e
            | .ok (result, log2) => .ok (.arr result, log2)
        | _ => .error "TypeError: obj.forEach is not a function"
    | .ok false =>
        match filterEach predicate [] [iterable] log with
        | .error e => .error e
        | .ok (result, log2) => .ok (.arr result, log2)
  else .ok (.undef, log)

/-- The `(element, currentKey)` pairs `map`'s loop feeds to the predicate:
`(obj[index], index)` for `index` in `0..length-1` when `objKeys` is absent
(array-like case), `(obj[key], key)` per enumerated key otherwise. -/
def mapPairs (obj : Value) : Option (List String) → List (Value × Value)
  | none => (List.range (sourceLen obj)).map (fun index => (getIndex obj index, .num (Int.ofNat index)))
  | some ks => ks.map (fun key => (getMember obj key, .str key))

/-- `map`'s `for` loop.  `result[index]` is assigned only under
`if (predicate)`, so with a falsy predicate the result array is never
written and stays empty. -/
def mapLoop (predicate : Predicate) : List (Value × Value) → CallLog →
    Except String (List Value × CallLog)
  | [], log => .ok ([], log)
  | (elem, key) :: rest, log =>
      if predTruthy predicate then
        match predCall predicate [elem, key] log with
        | .error e => .error e
        | .ok (r, log2) =>
            match mapLoop predicate rest log2 with
            | .error e => .error e
            | .ok (tail, log3) => .ok (r :: tail, log3)
      else
        match mapLoop predicate rest log with
        | .error e => .error e
        | .ok (tail, log2) => .ok (tail, log2)

/--
`map(obj, predicate, context)` from the source:

    if (obj) {
      const result = [];
      const objKeys = !isArrayLike(obj) && keys(obj);
      const length = (objKeys || obj).length;
      for (let index = 0; index < length; index++) {
        const currentKey = objKeys ? objKeys[index] : index;
        if (predicate) {
          result[index] = predicate.call(context, obj[currentKey], currentKey);
        }
      }
      return result;
    }
-/
def map (obj : Value) (predicate : Predicate) (log : CallLog) :
    Except String (Value × CallLog) :=
  if truthy obj then
    match isArrayLike obj with
    | .error e => .error e
    | .ok al =>
        match mapLoop predicate (mapPairs obj (if al then none else some (keys obj))) log with
        | .error e => .error e
        | .ok (result, log2) => .ok (.arr result, log2)
  else .ok (.undef, log)

/-- The `(index, source[index])` pairs the scanning loops of `find`,
`findIndex` and `some` read, for `index` in `0..source.length-1`. -/
def srcPairs (source : Value) : List (Nat × Value) :=
  (List.range (sourceLen source)).map (fun i => (i, getIndex source i))

/-- `find`'s loop: break with `result = source[index]` on the first truthy
guarded predicate call. -/
def findLoop (predicate : Predicate) : List (Nat × Value) → CallLog →
    Except String (Option Value × CallLog)
  | [], log => .ok (none, log)
  | (_, e) :: rest, log =>
      if predTruthy predicate then
        match predCall predicate [e] log with
        | .error msg => .error msg
        | .ok (r, log2) =>
            if truthy r then .ok (some e, log2) else findLoop predicate rest log2
      else findLoop predicate rest log

/-- `findIndex`'s loop: identical to `find`'s except that it breaks with
`result = index`. -/
def findIndexLoop (predicate : Predicate) : List (Nat × Value) → CallLog →
    Except String (Option Nat × CallLog)
  | [], log => .ok (none, log)
  | (i, e) :: rest, log =>
      if predTruthy predicate then
        match predCall predicate [e] log with
        | .error msg => .error msg
        | .ok (r, log2) =>
            if truthy r then .ok (some i, log2) else findIndexLoop predicate rest log2
      else findIndexLoop predicate rest log

/-- `some`'s loop: identical again, breaking with `result = true`. -/
def someLoop (predicate : Predicate) : List (Nat × Value) → CallLog →
    Except String (Option Unit × CallLog)
  | [], log => .ok (none, log)
  | (_, e) :: rest, log =>
      if predTruthy predicate then
        match predCall predicate [e] log with
        | .error msg => .error msg
        | .ok (r, log2) =>
            if truthy r then .ok (some (), log2) else someLoop predicate rest log2
      else someLoop predicate rest log

/--
`find(iterable, predicate, context)` from the source: `undefined` on falsy
input, else scan `source` (the iterable if array-like, `[iterable]`
otherwise) and return the first element passing the predicate, `undefined`
when none does.  `isArrayLike` cannot throw here (the input is truthy). -/
def find (iterable : Value) (predicate : Predicate) (log : CallLog) :
    Except String (Value × CallLog) :=
  if truthy iterable then
    match isArrayLike iterable with
    | .error e => .error e
    | .ok al =>
        let source := if al then iterable else .arr [iterable]
        match findLoop predicate (srcPairs source) log with
        | .error e => .error e
        | .ok (r, log2) => .ok (r.getD .undef, log2)
  else .ok (.undef, log)

/-- `findIndex(iterable, predicate, context)` from the source: like `find`
but returning the matching index. -/
def findIndex (iterable : Value) (predicate : Predicate) (log : CallLog) :
    Except String (Value × CallLog) :=
  if truthy iterable then
    match isArrayLike iterable with
    | .error e => .error e
    | .ok al =>
        let source := if al then iterable else .arr [iterable]
        match findIndexLoop predicate (srcPairs source) log with
        | .error e => .error e
        | .ok (r, log2) =>
            .ok ((match r with | some i => .num (Int.ofNat i) | none => .undef), log2)
  else .ok (.undef, log)

/-- `some(iterable, predicate, context)` from the source (named `someJs`
here because `some` is taken by `Option.some`): like `find` but the result
variable is set to `true` on the first match and is otherwise left
`undefined` — it is never set to `false`. -/
def someJs (iterable : Value) (predicate : Predicate) (log : CallLog) :
    Except String (Value × CallLog) :=
  if truthy iterable then
    match isArrayLike iterable with
    | .error e => .error e
    | .ok al =>
        let source := if al then iterable else .arr [iterable]
        match someLoop predicate (srcPairs source) log with
        | .error e => .error e
        | .ok (r, log2) =>
            .ok ((match r with | some _ => .bool true | none => .undef), log2)
  else .ok (.undef, log)

/--
`first(iterable)` from the source: `undefined` on falsy input; the first
element when array-like and non-empty; the value itself otherwise.
`isArrayLike` cannot throw here, so the pure `arrayLikeB` is used. -/
def first (iterable : Value) : Value :=
  if truthy iterable then
    if arrayLikeB iterable then
      if 0 < sourceLen iterable then getIndex iterable 0 else .undef
    else iterable
  else (.undef)

/-- `last(iterable)` from the source: as `first`, with
`iterable[iterable.length - 1]`. -/
def last (iterable : Value) : Value :=
  if truthy iterable then
    if arrayLikeB iterable then
      if 0 < sourceLen iterable then getIndex iterable (sourceLen iterable - 1) else .undef
    else iterable
  else (.undef)

/-- `size(iterable)` from the source: `0` on falsy input, else
`source.length` for the normalized source. -/
def size (iterable : Value) : Value :=
  if truthy iterable then .num (Int.ofNat (sourceLen (normalizeSrc iterable))) else .num 0

/-- The pushing step of `union`'s inner closure:
`if (result.indexOf(obj) < 0) result.push(obj)`. -/
def unionPush (result : List Value) (obj : Value) : List Value :=
  if listIndexOf result obj < 0 then result ++ [obj] else result

/-- `union`'s `arrs.forEach` loop with the inner `each` inlined: falsy
arguments are skipped; a true array contributes its elements; a truthy
non-array-like argument contributes itself; a truthy array-like non-array
makes the inner `forEach` call throw. -/
def unionLoop : List Value → List Value → Except String (List Value)
  | result, [] => .ok result
  | result, arg :: rest =>
      if truthy arg then
        match isArrayLike arg with
        | .error e => .error e
        | .ok true =>
            match arg with
            | .arr xs => unionLoop (xs.foldl unionPush result) rest
            | _ => .error "TypeError: obj.forEach is not a function"
        | .ok false => unionLoop (unionPush result arg) rest
      else unionLoop result rest

/-- `union(...arrs)` from the source.  The rest-parameter `arrs` is always
a true array, so the defensive `if (arrs)` always takes the then-branch. -/
def union (arrs : List Value) : Except String Value :=
  if truthy (.arr arrs) then
    match unionLoop [] arrs with
    | .error e => .error e
    | .ok result => .ok (.arr result)
  else .ok (.undef)

/-- Decimal digits of `n`, most significant first, by repeated division
(`fuel`-driven; `fuel ≥ n` suffices). -/
def natDigitsAux : Nat → Nat → List Nat
  | 0, _ => []
  | fuel + 1, n => if n = 0 then [] else natDigitsAux fuel (n / 10) ++ [n % 10]

/-- Decimal digits of `n`, most significant first (`[0]` for `0`). -/
def natDigits (n : Nat) : List Nat :=
  if n = 0 then [0] else natDigitsAux n n

/-- A decimal digit as a character. -/
def digitChar (d : Nat) : Char := Char.ofNat (48 + d)

/-- The decimal numeral of `n`, as JavaScript's number-to-string coercion
`n + ''` produces for the (integral, positive) counter values. -/
def jsNatStr (n : Nat) : String := String.mk ((natDigits n).map digitChar)

/--
`uniqueId(prefix)` from the source:

    const id = ++idCounter + '';
    return prefix ? prefix + id : id;

The module-level mutable `idCounter` is passed and returned explicitly; the
`prefix` parameter (named `pre`: `prefix` is a Lean keyword) is an optional
string, absent and empty strings being falsy. -/
def uniqueId (pre : Option String) (idCounter : Nat) : String × Nat :=
  let id := jsNatStr (idCounter + 1)
  ((match pre with
    | some p => if p != "" then p ++ id else id
    | none => id), idCounter + 1)

/-- A sequence of `uniqueId` calls in one process: the counter starts at the
given value (0 at process start) and threads through the calls. -/
def runUniqueIds (pres : List (Option String)) (idCounter : Nat) : List String :=
  match pres with
  | [] => []
  | p :: rest =>
      (uniqueId p idCounter).1 :: runUniqueIds rest (uniqueId p idCounter).2

/--
`flattenInternal(output, element)` from the source:

    if (element) {
      each(element, (obj) => {
        if (Array.isArray(obj)) {
          flattenInternal(output, obj);
        } else {
          output.push(obj);
        }
      });
    }

Within `flatten` the `element` argument is always a true array (the
rest-parameter array at the top, values passing `Array.isArray` in the
recursion), which is truthy, and `each` over a true array is `forEach` over
its elements; the embedding therefore takes the element list of that array
and accumulates the pushes. -/
def flattenInternal (output : List Value) : List Value → List Value
  | [] => output
  | .arr xs :: rest => flattenInternal (flattenInternal output xs) rest
  | obj :: rest => flattenInternal (output ++ [obj]) rest
termination_by l => sizeOf l

/-- `flatten(...arrays)` from the source.  The rest-parameter is always a
true array, so the defensive `if (arrays)` always takes the then-branch. -/
def flatten (arrays : List Value) : Value :=
  if truthy (.arr arrays) then .arr (flattenInternal [] arrays) else (.undef)

/-! ## Basic lemmas about the data model -/

theorem strictEq_eq {a b : Value} (h : strictEq a b = true) : a = b := by
  cases a <;> cases b <;> simp_all [strictEq]

/-- `isArrayLike` succeeds (returning the pure classification) on every
value other than `undefined` and `null`. -/
theorem isArrayLike_of_ne (v : Value) (h1 : v ≠ .undef) (h2 : v ≠ .null) :
    isArrayLike v = .ok (arrayLikeB v) := by
  cases v with
  | undef => exact absurd rfl h1
  | null => exact absurd rfl h2
  | bool b => rfl
  | num n => rfl
  | str s => rfl
  | arr xs => rfl
  | obj fs =>
      cases hl : lookupField fs "length" with
      | none => simp [isArrayLike, isArray, getLength, hl, arrayLikeB]
      | some lv => cases lv <;> simp [isArrayLike, isArray, getLength, hl, arrayLikeB]

theorem truthy_arr (xs : List Value) : truthy (.arr xs) = true := rfl

/-! ## Loop lemmas -/

theorem eachArr_jsfn (f : List Value → Value) (xs : List Value) (log : CallLog) :
    eachArr (.jsfn f) xs log = .ok (log ++ xs.map (fun e => [e])) := by
  induction xs generalizing log with
  | nil => simp [eachArr]
  | cons x rest ih => simp [eachArr, predCall, ih]

theorem filterEach_jsfn (f : List Value → Value) (xs : List Value) (result : List Value)
    (log : CallLog) :
    filterEach (.jsfn f) result xs log =
      .ok (result ++ xs.filter (fun e => truthy (f [e])), log ++ xs.map (fun e => [e])) := by
  induction xs generalizing result log with
  | nil => simp [filterEach]
  | cons x rest ih =>
      by_cases hx : truthy (f [x]) = true <;>
        simp [filterEach, predTruthy, predCall, ih, hx]

theorem filterEach_falsy (p : Predicate) (hp : predTruthy p = false) (xs : List Value)
    (result : List Value) (log : CallLog) :
    filterEach p result xs log = .ok (result, log) := by
  induction xs with
  | nil => simp [filterEach]
  | cons x rest ih => simp [filterEach, hp, ih]

theorem mapLoop_jsfn (f : List Value → Value) (pairs : List (Value × Value)) (log : CallLog) :
    mapLoop (.jsfn f) pairs log =
      .ok (pairs.map (fun q => f [q.1, q.2]), log ++ pairs.map (fun q => [q.1, q.2])) := by
  induction pairs generalizing log with
  | nil => simp [mapLoop]
  | cons q rest ih => simp [mapLoop, predTruthy, predCall, ih]

theorem mapLoop_falsy (p : Predicate) (hp : predTruthy p = false)
    (pairs : List (Value × Value)) (log : CallLog) :
    mapLoop p pairs log = .ok ([], log) := by
  induction pairs generalizing log with
  | nil => simp [mapLoop]
  | cons q rest ih => simp [mapLoop, hp, ih]

/-- The shape shared by the scanning loops of `find`/`findIndex`/`some` with
a genuine function predicate: the visited prefix (everything up to and
including the first hit, or everything when there is none) and the hit. -/
def firstHit (f : List Value → Value) : List (Nat × Value) →
    List (Nat × Value) × Option (Nat × Value)
  | [] => ([], none)
  | q :: rest =>
      if truthy (f [q.2]) then ([q], some q)
      else ((q :: (firstHit f rest).1), (firstHit f rest).2)

theorem findLoop_jsfn (f : List Value → Value) (pairs : List (Nat × Value)) (log : CallLog) :
    findLoop (.jsfn f) pairs log =
      .ok ((firstHit f pairs).2.map (fun q => q.2),
           log ++ (firstHit f pairs).1.map (fun q => [q.2])) := by
  induction pairs generalizing log with
  | nil => simp [findLoop, firstHit]
  | cons q rest ih =>
      by_cases hq : truthy (f [q.2]) = true <;>
        simp [findLoop, firstHit, predTruthy, predCall, hq, ih]

theorem findIndexLoop_jsfn (f : List Value → Value) (pairs : List (Nat × Value))
    (log : CallLog) :
    findIndexLoop (.jsfn f) pairs log =
      .ok ((firstHit f pairs).2.map (fun q => q.1),
           log ++ (firstHit f pairs).1.map (fun q => [q.2])) := by
  induction pairs generalizing log with
  | nil => simp [findIndexLoop, firstHit]
  | cons q rest ih =>
      by_cases hq : truthy (f [q.2]) = true <;>
        simp [findIndexLoop, firstHit, predTruthy, predCall, hq, ih]

theorem someLoop_jsfn (f : List Value → Value) (pairs : List (Nat × Value)) (log : CallLog) :
    someLoop (.jsfn f) pairs log =
      .ok ((firstHit f pairs).2.map (fun _ => ()),
           log ++ (firstHit f pairs).1.map (fun q => [q.2])) := by
  induction pairs generalizing log with
  | nil => simp [someLoop, firstHit]
  | cons q rest ih =>
      by_cases hq : truthy (f [q.2]) = true <;>
        simp [someLoop, firstHit, predTruthy, predCall, hq, ih]

theorem findLoop_falsy (p : Predicate) (hp : predTruthy p = false)
    (pairs : List (Nat × Value)) (log : CallLog) :
    findLoop p pairs log = .ok (none, log) := by
  induction pairs with
  | nil => simp [findLoop]
  | cons q rest ih => simp [findLoop, hp, ih]

theorem findIndexLoop_falsy (p : Predicate) (hp : predTruthy p = false)
    (pairs : List (Nat × Value)) (log : CallLog) :
    findIndexLoop p pairs log = .ok (none, log) := by
  induction pairs with
  | nil => simp [findIndexLoop]
  | cons q rest ih => simp [findIndexLoop, hp, ih]

theorem someLoop_falsy (p : Predicate) (hp : predTruthy p = false)
    (pairs : List (Nat × Value)) (log : CallLog) :
    someLoop p pairs log = .ok (none, log) := by
  induction pairs with
  | nil => simp [someLoop]
  | cons q rest ih => simp [someLoop, hp, ih]

/-- `firstHit` when every element misses. -/
theorem firstHit_none (f : List Value → Value) (pairs : List (Nat × Value))
    (h : ∀ q ∈ pairs, truthy (f [q.2]) = false) :
    firstHit f pairs = (pairs, none) := by
  induction pairs with
  | nil => simp [firstHit]
  | cons q rest ih =>
      have hq := h q (by simp)
      simp [firstHit, hq, ih (fun q2 hq2 => h q2 (by simp [hq2]))]

/-- `firstHit` over an all-missing prefix. -/
theorem firstHit_append (f : List Value → Value) (p1 p2 : List (Nat × Value))
    (h : ∀ q ∈ p1, truthy (f [q.2]) = false) :
    firstHit f (p1 ++ p2) = (p1 ++ (firstHit f p2).1, (firstHit f p2).2) := by
  induction p1 with
  | nil => simp
  | cons q rest ih =>
      have hq := h q (by simp)
      simp [firstHit, hq, ih (fun q2 hq2 => h q2 (by simp [hq2]))]

theorem firstHit_cons_hit (f : List Value → Value) (q : Nat × Value)
    (rest : List (Nat × Value)) (h : truthy (f [q.2]) = true) :
    firstHit f (q :: rest) = ([q], some q) := by
  simp [firstHit, h]

/-! ## Unfolding lemmas for the scanning functions on truthy input -/

theorem find_eq (iterable : Value) (p : Predicate) (log : CallLog)
    (h : truthy iterable = true) :
    find iterable p log =
      match findLoop p (srcPairs (normalizeSrc iterable)) log with
      | .error e => .error e
      | .ok (r, log2) => .ok (r.getD .undef, log2) := by
  simp [find, h, isArrayLike_of_truthy _ h, normalizeSrc]

theorem findIndex_eq (iterable : Value) (p : Predicate) (log : CallLog)
    (h : truthy iterable = true) :
    findIndex iterable p log =
      match findIndexLoop p (srcPairs (normalizeSrc iterable)) log with
      | .error e => .error e
      | .ok (r, log2) =>
          .ok ((match r with | some i => .num (Int.ofNat i) | none => .undef), log2) := by
  simp [findIndex, h, isArrayLike_of_truthy _ h, normalizeSrc]

theorem someJs_eq (iterable : Value) (p : Predicate) (log : CallLog)
    (h : truthy iterable = true) :
    someJs iterable p log =
      match someLoop p (srcPairs (normalizeSrc iterable)) log with
      | .error e => .error e
      | .ok (r, log2) =>
          .ok ((match r with | some _ => .bool true | none => .undef), log2) := by
  simp [someJs, h, isArrayLike_of_truthy _ h, normalizeSrc]

/-- Membership in the scanned pairs determines the element. -/
theorem mem_srcPairs {source : Value} {i : Nat} {e : Value}
    (h : (i, e) ∈ srcPairs source) : e = getIndex source i ∧ i < sourceLen source := by
  simp only [srcPairs, List.mem_map, List.mem_range] at h
  obtain ⟨j, hj, hje⟩ := h
  obtain ⟨rfl, rfl⟩ := Prod.mk.injEq .. ▸ hje
  exact ⟨rfl, hj⟩

/-! ## `indexOf` lemmas -/

theorem listIndexOfAux_neg_iff (v : Value) (xs : List Value) :
    ∀ i, (listIndexOfAux v xs i < 0) ↔ (∀ x ∈ xs, strictEq x v = false) := by
  induction xs with
  | nil => intro i; simp [listIndexOfAux]
  | cons x rest ih =>
      intro i
      by_cases hx : strictEq x v = true
      · simp [listIndexOfAux, hx]
      · have hx2 : strictEq x v = false := by simpa using hx
        simp [listIndexOfAux, hx2, ih (i + 1)]

theorem listIndexOf_neg_iff (xs : List Value) (v : Value) :
    (listIndexOf xs v < 0) ↔ (∀ x ∈ xs, strictEq x v = false) :=
  listIndexOfAux_neg_iff v xs 0

/-- Substring occurrence, as an explicit scan: does `k` occur (contiguously)
in the scanned list?  This is the relation `String.prototype.indexOf`
decides. -/
def containsSub (k : List Char) : List Char → Bool
  | [] => k.isEmpty
  | c :: s => k.isPrefixOf (c :: s) || containsSub k s

theorem strIndexOfAux_neg_iff (k : List Char) (s : List Char) :
    ∀ i, (strIndexOfAux k s i < 0) ↔ (containsSub k s = false) := by
  induction s with
  | nil =>
      intro i
      by_cases hk : k.isEmpty = true <;> simp [strIndexOfAux, containsSub, hk]
  | cons c rest ih =>
      intro i
      cases hp : k.isPrefixOf (c :: rest) with
      | true => simp [strIndexOfAux, containsSub, hp]
      | false => simp [strIndexOfAux, containsSub, hp, ih (i + 1)]

theorem strIndexOf_neg_iff (s key : String) :
    (strIndexOf s key < 0) ↔ (containsSub key.data s.data = false) :=
  strIndexOfAux_neg_iff key.data s.data 0

/-! ## `lookupField` and `omit` lemmas -/

theorem lookupField_cons_ne (k : String) (v : Value) (fs : List (String × Value))
    (key : String) (h : k ≠ key) :
    lookupField ((k, v) :: fs) key = lookupField fs key := by
  have hb : (k == key) = false := by simpa using h
  simp [lookupField, List.find?, hb]

theorem lookupField_of_nodup (fs : List (String × Value))
    (hnd : (fs.map Prod.fst).Nodup) (kv : String × Value) (hm : kv ∈ fs) :
    lookupField fs kv.1 = some kv.2 := by
  induction fs with
  | nil => simp at hm
  | cons hd rest ih =>
      rcases List.mem_cons.mp hm with rfl | hm2
      · simp [lookupField, List.find?]
      · have hne : hd.1 ≠ kv.1 := by
          intro he
          have : kv.1 ∈ rest.map Prod.fst := List.mem_map.mpr ⟨kv, hm2, rfl⟩
          rw [List.map_cons, List.nodup_cons] at hnd
          exact hnd.1 (he ▸ this)
        rw [lookupField_cons_ne hd.1 hd.2 rest kv.1 hne]
        exact ih (by rw [List.map_cons, List.nodup_cons] at hnd; exact hnd.2) hm2

theorem getMember_of_nodup (fs : List (String × Value))
    (hnd : (fs.map Prod.fst).Nodup) (kv : String × Value) (hm : kv ∈ fs) :
    getMember (.obj fs) kv.1 = kv.2 := by
  simp [getMember, lookupField_of_nodup fs hnd kv hm]

theorem hasOwn_of_mem_jsKeys (v : Value) (key : String) (hk : key ∈ jsKeys v) :
    hasOwn v key = true := by
  cases v with
  | obj fs =>
      simp only [jsKeys, List.mem_map] at hk
      obtain ⟨kv, hkv, rfl⟩ := hk
      exact List.any_eq_true.mpr ⟨kv, hkv, by simp⟩
  | arr xs =>
      simp only [jsKeys, List.mem_map] at hk
      obtain ⟨i, hi, rfl⟩ := hk
      simp only [hasOwn, Bool.or_eq_true, List.any_eq_true]
      right
      exact ⟨i, hi, by simp⟩
  | str s =>
      simp only [jsKeys, List.mem_map] at hk
      obtain ⟨i, hi, rfl⟩ := hk
      simp only [hasOwn, Bool.or_eq_true, List.any_eq_true]
      right
      exact ⟨i, hi, by simp⟩
  | undef => simp [jsKeys] at hk
  | null => simp [jsKeys] at hk
  | bool b => simp [jsKeys] at hk
  | num n => simp [jsKeys] at hk

/-- The `hasOwnProperty` guard of `omit`'s key walk keeps every `for...in`
key. -/
theorem filter_hasOwn_jsKeys (v : Value) :
    (jsKeys v).filter (fun key => hasOwn v key) = jsKeys v :=
  List.filter_eq_self.mpr (fun key hk => hasOwn_of_mem_jsKeys v key hk)

/-- `omitKeys` with a falsy `fields`: every key is copied. -/
theorem omitKeys_falsy (obj fields : Value) (hf : truthy fields = false)
    (ks : List String) :
    omitKeys obj fields ks = .ok (ks.map (fun k => (k, getMember obj k))) := by
  induction ks with
  | nil => simp [omitKeys]
  | cons k rest ih => simp [omitKeys, hf, ih]

/-- `omitKeys` with a truthy `fields` whose `indexOf` is total: keys whose
index is non-negative are dropped, the rest are copied. -/
theorem omitKeys_pure (obj fields : Value) (idxF : String → Int)
    (hf : truthy fields = true) (hidx : ∀ k, jsIndexOf fields k = .ok (idxF k))
    (ks : List String) :
    omitKeys obj fields ks =
      .ok (ks.filterMap (fun k =>
        if idxF k < 0 then some (k, getMember obj k) else none)) := by
  induction ks with
  | nil => simp [omitKeys]
  | cons k rest ih =>
      by_cases hk : idxF k < 0 <;>
        simp [omitKeys, hf, hidx k, hk, ih]

/-- Walking an object's own keys and copying the kept ones is filtering its
field list, provided the keys are duplicate-free. -/
theorem filterMap_keys_eq_filter (P : String → Bool) (fs : List (String × Value))
    (g : String → Value) (hg : ∀ kv ∈ fs, g kv.1 = kv.2) :
    (fs.map Prod.fst).filterMap (fun k => if P k then some (k, g k) else none) =
      fs.filter (fun kv => P kv.1) := by
  induction fs with
  | nil => simp
  | cons kv rest ih =>
      have hhd : g kv.1 = kv.2 := hg kv (by simp)
      by_cases hp : P kv.1 = true <;>
        simp [List.filterMap_cons, hp, hhd,
          ih (fun kv2 h2 => hg kv2 (by simp [h2]))]

/-! ## `flatten` lemmas -/

theorem flattenInternal_append (output l : List Value) :
    flattenInternal output l = output ++ flattenInternal [] l := by
  refine flattenInternal.induct
    (motive := fun _ l => ∀ out2, flattenInternal out2 l = out2 ++ flattenInternal [] l)
    ?_ ?_ ?_ [] l output
  · intro out2
    simp [flattenInternal]
  · intro _ xs rest ih1 ih2 out2
    simp only [flattenInternal]
    rw [ih2 (flattenInternal out2 xs), ih2 (flattenInternal [] xs), ih1 out2]
    simp
  · intro _ v rest hne ih out2
    cases v with
    | arr xs => exact (hne xs rfl).elim
    | undef =>
        simp only [flattenInternal]
        rw [ih (out2 ++ [Value.undef]), ih ([] ++ [Value.undef])]
        simp
    | null =>
        simp only [flattenInternal]
        rw [ih (out2 ++ [Value.null]), ih ([] ++ [Value.null])]
        simp
    | bool b =>
        simp only [flattenInternal]
        rw [ih (out2 ++ [Value.bool b]), ih ([] ++ [Value.bool b])]
        simp
    | num n =>
        simp only [flattenInternal]
        rw [ih (out2 ++ [Value.num n]), ih ([] ++ [Value.num n])]
        simp
    | str s =>
        simp only [flattenInternal]
        rw [ih (out2 ++ [Value.str s]), ih ([] ++ [Value.str s])]
        simp
    | obj fs =>
        simp only [flattenInternal]
        rw [ih (out2 ++ [Value.obj fs]), ih ([] ++ [Value.obj fs])]
        simp

/-- Flattening leaves no true-array element in the output. -/
theorem flattenInternal_no_arr (l : List Value) :
    ∀ v ∈ flattenInternal [] l, isArray v = false := by
  refine flattenInternal.induct
    (motive := fun _ l => ∀ v ∈ flattenInternal [] l, isArray v = false)
    ?_ ?_ ?_ [] l
  · intro _ v hv
    simp [flattenInternal] at hv
  · intro _ xs rest ih1 ih2 v hv
    simp only [flattenInternal] at hv
    rw [flattenInternal_append (flattenInternal [] xs) rest] at hv
    rcases List.mem_append.mp hv with h1 | h2
    · exact ih1 v h1
    · exact ih2 v h2
  · intro _ w rest hne ih v hv
    have hv2 : v ∈ [w] ++ flattenInternal [] rest := by
      cases w with
      | arr xs => exact (hne xs rfl).elim
      | undef => simpa [flattenInternal, flattenInternal_append [Value.undef] rest] using hv
      | null => simpa [flattenInternal, flattenInternal_append [Value.null] rest] using hv
      | bool b => simpa [flattenInternal, flattenInternal_append [Value.bool b] rest] using hv
      | num n => simpa [flattenInternal, flattenInternal_append [Value.num n] rest] using hv
      | str s => simpa [flattenInternal, flattenInternal_append [Value.str s] rest] using hv
      | obj fs => simpa [flattenInternal, flattenInternal_append [Value.obj fs] rest] using hv
    rcases List.mem_append.mp hv2 with h1 | h2
    · have : v = w := by simpa using h1
      subst this
      cases v with
      | arr xs => exact (hne xs rfl).elim
      | undef => rfl
      | null => rfl
      | bool b => rfl
      | num n => rfl
      | str s => rfl
      | obj fs => rfl
    · cases w with
      | arr xs => exact (hne xs rfl).elim
      | undef => exact ih v h2
      | null => exact ih v h2
      | bool b => exact ih v h2
      | num n => exact ih v h2
      | str s => exact ih v h2
      | obj fs => exact ih v h2

/-- Flattening a list with no true-array element changes nothing. -/
theorem flattenInternal_of_no_arr (l : List Value) (h : ∀ v ∈ l, isArray v = false) :
    flattenInternal [] l = l := by
  induction l with
  | nil => simp [flattenInternal]
  | cons x rest ih =>
      have hx : isArray x = false := h x (by simp)
      have hrest := ih (fun v hv => h v (by simp [hv]))
      cases x with
      | arr xs => simp [isArray] at hx
      | undef => rw [show flattenInternal [] (Value.undef :: rest) =
            flattenInternal ([] ++ [Value.undef]) rest from by simp [flattenInternal],
          flattenInternal_append, hrest]; rfl
      | null => rw [show flattenInternal [] (Value.null :: rest) =
            flattenInternal ([] ++ [Value.null]) rest from by simp [flattenInternal],
          flattenInternal_append, hrest]; rfl
      | bool b => rw [show flattenInternal [] (Value.bool b :: rest) =
            flattenInternal ([] ++ [Value.bool b]) rest from by simp [flattenInternal],
          flattenInternal_append, hrest]; rfl
      | num n => rw [show flattenInternal [] (Value.num n :: rest) =
            flattenInternal ([] ++ [Value.num n]) rest from by simp [flattenInternal],
          flattenInternal_append, hrest]; rfl
      | str s => rw [show flattenInternal [] (Value.str s :: rest) =
            flattenInternal ([] ++ [Value.str s]) rest from by simp [flattenInternal],
          flattenInternal_append, hrest]; rfl
      | obj fs => rw [show flattenInternal [] (Value.obj fs :: rest) =
            flattenInternal ([] ++ [Value.obj fs]) rest from by simp [flattenInternal],
          flattenInternal_append, hrest]; rfl

/-! ## `union` lemmas -/

/-- The candidate elements `union` scans, in order: falsy arguments none, a
true array its elements, any other truthy argument itself (under `each`
semantics). -/
def unionCandidates : List Value → List Value
  | [] => []
  | a :: rest =>
      (if truthy a then (match a with | .arr xs => xs | v => [v]) else [])
        ++ unionCandidates rest

/-- One step of first-occurrence de-duplication under strict equality. -/
def dedupStep (acc : List Value) (x : Value) : List Value :=
  if acc.any (fun y => strictEq y x) then acc else acc ++ [x]

/-- First-occurrence de-duplication (by strict equality) of a candidate
list, continuing an accumulated result. -/
def dedupFirst (acc l : List Value) : List Value :=
  l.foldl dedupStep acc

theorem unionPush_eq_dedupStep (acc : List Value) (x : Value) :
    unionPush acc x = dedupStep acc x := by
  by_cases hany : (acc.any fun y => strictEq y x) = true
  · have : ¬ (listIndexOf acc x < 0) := by
      intro hneg
      have hall := (listIndexOf_neg_iff acc x).mp hneg
      obtain ⟨y, hy, hsy⟩ := List.any_eq_true.mp hany
      rw [hall y hy] at hsy
      exact Bool.false_ne_true hsy
    simp [unionPush, dedupStep, this, hany]
  · have hall : ∀ y ∈ acc, strictEq y x = false := by
      intro y hy
      by_contra hne
      exact hany (List.any_eq_true.mpr ⟨y, hy, by simpa using hne⟩)
    have : listIndexOf acc x < 0 := (listIndexOf_neg_iff acc x).mpr hall
    simp [unionPush, dedupStep, this, hany]

theorem foldl_unionPush (xs acc : List Value) :
    xs.foldl unionPush acc = dedupFirst acc xs := by
  induction xs generalizing acc with
  | nil => simp [dedupFirst]
  | cons x rest ih =>
      simp only [List.foldl_cons, dedupFirst, unionPush_eq_dedupStep]
      exact ih (dedupStep acc x)

/-- `union`'s main loop computes first-occurrence de-duplication of the
candidates, provided no argument is a truthy array-like non-array (which
would make the inner `forEach` throw). -/
theorem unionLoop_spec (args : List Value)
    (h : ∀ a ∈ args, truthy a = false ∨ isArray a = true ∨ arrayLikeB a = false) :
    ∀ acc, unionLoop acc args = .ok (dedupFirst acc (unionCandidates args)) := by
  induction args with
  | nil => intro acc; simp [unionLoop, unionCandidates, dedupFirst]
  | cons a rest ih =>
      intro acc
      have ha := h a (by simp)
      have hrest := ih (fun a2 h2 => h a2 (by simp [h2]))
      cases ht : truthy a with
      | false => simp [unionLoop, ht, unionCandidates, hrest]
      | true =>
          rcases ha with hfal | harr | hnal
          · rw [ht] at hfal; exact absurd hfal (by simp)
          · cases a with
            | arr xs =>
                simp only [unionLoop, ht, if_true, isArrayLike_of_truthy _ ht, arrayLikeB,
                  unionCandidates, foldl_unionPush]
                rw [hrest (dedupFirst acc xs)]
                simp [dedupFirst, List.foldl_append]
            | undef => simp [isArray] at harr
            | null => simp [isArray] at harr
            | bool b => simp [isArray] at harr
            | num n => simp [isArray] at harr
            | str s => simp [isArray] at harr
            | obj fs => simp [isArray] at harr
          · have hnarr : isArray a = false := by
              cases a <;> simp_all [isArray, arrayLikeB]
            cases a with
            | arr xs => simp [isArray] at hnarr
            | undef => simp [truthy] at ht
            | null => simp [truthy] at ht
            | bool b =>
                simp only [unionLoop, ht, if_true, isArrayLike_of_truthy _ ht, hnal,
                  unionCandidates, unionPush_eq_dedupStep]
                rw [hrest (dedupStep acc (.bool b))]
                simp [ht, dedupFirst]
            | num n =>
                simp only [unionLoop, ht, if_true, isArrayLike_of_truthy _ ht, hnal,
                  unionCandidates, unionPush_eq_dedupStep]
                rw [hrest (dedupStep acc (.num n))]
                simp [ht, dedupFirst]
            | str s =>
                simp only [unionLoop, ht, if_true, isArrayLike_of_truthy _ ht, hnal,
                  unionCandidates, unionPush_eq_dedupStep]
                rw [hrest (dedupStep acc (.str s))]
                simp [ht, dedupFirst]
            | obj fs =>
                simp only [unionLoop, ht, if_true, isArrayLike_of_truthy _ ht, hnal,
                  unionCandidates, unionPush_eq_dedupStep]
                rw [hrest (dedupStep acc (.obj fs))]
                simp [ht, dedupFirst]

theorem dedupFirst_pairwise (l : List Value) :
    ∀ acc, acc.Pairwise (fun a b => strictEq a b = false) →
      (dedupFirst acc l).Pairwise (fun a b => strictEq a b = false) := by
  induction l with
  | nil => intro acc hacc; simpa [dedupFirst] using hacc
  | cons x rest ih =>
      intro acc hacc
      simp only [dedupFirst, List.foldl_cons]
      apply ih
      by_cases hany : (acc.any fun y => strictEq y x) = true
      · simpa [dedupStep, hany] using hacc
      · have hall : ∀ y ∈ acc, strictEq y x = false := by
          intro y hy
          by_contra hne
          exact hany (List.any_eq_true.mpr ⟨y, hy, by simpa using hne⟩)
        simp only [dedupStep, hany, Bool.false_eq_true, if_false]
        rw [List.pairwise_append]
        exact ⟨hacc, by simp, by intro a hma b hmb; simp at hmb; subst hmb; exact hall a hma⟩

theorem dedupFirst_mem (l : List Value) :
    ∀ acc x, x ∈ dedupFirst acc l ↔ (x ∈ acc ∨ x ∈ l) := by
  induction l with
  | nil => intro acc x; simp [dedupFirst]
  | cons y rest ih =>
      intro acc x
      simp only [dedupFirst, List.foldl_cons]
      rw [show List.foldl dedupStep (dedupStep acc y) rest = dedupFirst (dedupStep acc y) rest
        from rfl, ih]
      by_cases hany : (acc.any fun z => strictEq z y) = true
      · obtain ⟨z, hz, hsz⟩ := List.any_eq_true.mp hany
        have hzy : z = y := strictEq_eq hsz
        subst hzy
        simp only [dedupStep, hany, if_true, List.mem_cons]
        constructor
        · rintro (h1 | h2)
          · exact Or.inl h1
          · exact Or.inr (Or.inr h2)
        · rintro (h1 | rfl | h2)
          · exact Or.inl h1
          · exact Or.inl hz
          · exact Or.inr h2
      · simp only [dedupStep, hany, Bool.false_eq_true, if_false, List.mem_append,
          List.mem_singleton, List.mem_cons]
        tauto

/-! ## `uniqueId` lemmas -/

/-- Reading a digit list (most significant first) back as a number. -/
def ofDigitsList (ds : List Nat) : Nat :=
  ds.foldl (fun a d => a * 10 + d) 0

theorem natDigitsAux_bound (fuel : Nat) :
    ∀ n d, d ∈ natDigitsAux fuel n → d < 10 := by
  induction fuel with
  | zero => intro n d hd; simp [natDigitsAux] at hd
  | succ fuel ih =>
      intro n d hd
      by_cases hn : n = 0
      · simp [natDigitsAux, hn] at hd
      · simp only [natDigitsAux, hn, if_false, List.mem_append, List.mem_singleton] at hd
        rcases hd with h1 | rfl
        · exact ih (n / 10) d h1
        · exact Nat.mod_lt n (by omega)

theorem ofDigitsList_append_one (ds : List Nat) (d : Nat) :
    ofDigitsList (ds ++ [d]) = ofDigitsList ds * 10 + d := by
  simp [ofDigitsList, List.foldl_append]

theorem ofDigitsList_natDigitsAux (fuel : Nat) :
    ∀ n, n ≤ fuel → ofDigitsList (natDigitsAux fuel n) = n := by
  induction fuel with
  | zero => intro n hn; interval_cases n; simp [natDigitsAux, ofDigitsList]
  | succ fuel ih =>
      intro n hn
      by_cases h0 : n = 0
      · simp [natDigitsAux, h0, ofDigitsList]
      · have hdiv : n / 10 ≤ fuel := by
          have : n / 10 < n := Nat.div_lt_self (by omega) (by omega)
          omega
        simp only [natDigitsAux, h0, if_false]
        rw [ofDigitsList_append_one, ih (n / 10) hdiv]
        have := Nat.div_add_mod n 10
        omega

theorem ofDigitsList_natDigits (n : Nat) : ofDigitsList (natDigits n) = n := by
  by_cases h0 : n = 0
  · simp [natDigits, h0, ofDigitsList]
  · simp only [natDigits, h0, if_false]
    exact ofDigitsList_natDigitsAux n n le_rfl

theorem natDigits_bound (n : Nat) : ∀ d ∈ natDigits n, d < 10 := by
  by_cases h0 : n = 0
  · simp [natDigits, h0]
  · simp only [natDigits, h0, if_false]
    exact fun d hd => natDigitsAux_bound n n d hd

theorem toNat_digitChar (d : Nat) (h : d < 10) : (digitChar d).toNat = 48 + d := by
  interval_cases d <;> rfl

theorem map_digitChar_inj (xs : List Nat) :
    ∀ ys, (∀ d ∈ xs, d < 10) → (∀ d ∈ ys, d < 10) →
      xs.map digitChar = ys.map digitChar → xs = ys := by
  induction xs with
  | nil => intro ys _ _ h; cases ys with | nil => rfl | cons y ys => simp at h
  | cons x rest ih =>
      intro ys hxs hys h
      cases ys with
      | nil => simp at h
      | cons y ys2 =>
          simp only [List.map_cons, List.cons.injEq] at h
          have hx10 : x < 10 := hxs x (by simp)
          have hy10 : y < 10 := hys y (by simp)
          have hxy : x = y := by
            have := congrArg Char.toNat h.1
            rw [toNat_digitChar x hx10, toNat_digitChar y hy10] at this
            omega
          have := ih ys2 (fun d hd => hxs d (by simp [hd]))
            (fun d hd => hys d (by simp [hd])) h.2
          rw [hxy, this]

theorem jsNatStr_inj {a b : Nat} (h : jsNatStr a = jsNatStr b) : a = b := by
  have hdata : (natDigits a).map digitChar = (natDigits b).map digitChar := by
    have := congrArg String.data h
    simpa [jsNatStr] using this
  have := map_digitChar_inj (natDigits a) (natDigits b)
    (natDigits_bound a) (natDigits_bound b) hdata
  calc a = ofDigitsList (natDigits a) := (ofDigitsList_natDigits a).symm
    _ = ofDigitsList (natDigits b) := by rw [this]
    _ = b := ofDigitsList_natDigits b

theorem runUniqueIds_length (pres : List (Option String)) :
    ∀ c, (runUniqueIds pres c).length = pres.length := by
  induction pres with
  | nil => intro c; rfl
  | cons p rest ih => intro c; simp [runUniqueIds, ih]

/-- The `i`-th output of a call sequence: the `i`-th prefix applied to the
`i`-th counter value. -/
theorem runUniqueIds_getD (pres : List (Option String)) :
    ∀ c i, i < pres.length →
      (runUniqueIds pres c).getD i "" = (uniqueId (pres.getD i none) (c + i)).1 := by
  induction pres with
  | nil => intro c i hi; simp at hi
  | cons p rest ih =>
      intro c i hi
      cases i with
      | zero => simp [runUniqueIds]
      | succ j =>
          have hj : j < rest.length := by simpa using hi
          have h2 := ih (uniqueId p c).2 j hj
          simp only [runUniqueIds, List.getD_cons_succ]
          rw [h2]
          have hc : (uniqueId p c).2 = c + 1 := rfl
          rw [hc, show c + 1 + j = c + (j + 1) from by omega]

/-! ## Claim theorems -/

/-- C1: for every aggregate operation (each, filter, map, find, findIndex,
some, first, last), a falsy collection argument (undefined, null, false, 0,
empty string) yields `undefined` — not an empty container and not an error —
and this holds for every predicate argument with the call log unchanged (no
predicate invocation); `size` alone returns `0` on falsy input. -/
theorem c1_falsy_input_noop (v : Value) (p : Predicate) (log : CallLog)
    (h : truthy v = false) :
    each v p log = .ok (.undef, log) ∧
    filter v p log = .ok (.undef, log) ∧
    map v p log = .ok (.undef, log) ∧
    find v p log = .ok (.undef, log) ∧
    findIndex v p log = .ok (.undef, log) ∧
    someJs v p log = .ok (.undef, log) ∧
    first v = .undef ∧
    last v = .undef ∧
    size v = .num 0 := by
  refine ⟨?_, ?_, ?_, ?_, ?_, ?_, ?_, ?_, ?_⟩ <;>
    simp [each, filter, map, find, findIndex, someJs, first, last, size, h]

theorem c1_witness :
    truthy Value.null = false ∧
    filter Value.null (.jsfn (fun _ => .bool true)) [] = .ok (.undef, []) :=
  ⟨rfl, (c1_falsy_input_noop Value.null (.jsfn (fun _ => .bool true)) [] rfl).2.1⟩

/-- C3 counterexample: `{length: 0}` is truthy and array-like, yet `each`
does not invoke the predicate zero times and return undefined — it throws,
because a plain array-like object has no `forEach` method. -/
theorem c3_counterexample :
    truthy (Value.obj [("length", Value.num 0)]) = true ∧
    arrayLikeB (Value.obj [("length", Value.num 0)]) = true ∧
    each (Value.obj [("length", Value.num 0)]) (.jsfn (fun _ => .undef)) [] =
      .error "TypeError: obj.forEach is not a function" :=
  ⟨rfl, rfl, rfl⟩

/-- C3 (amended): for every truthy obj, `each(obj, predicate, context)`
invokes the predicate once per element in ascending index order with only
the element as argument when obj is a true array, and invokes it exactly
once with obj itself when obj is not array-like; in both cases each returns
undefined.  A truthy array-like value that is not a true array instead
throws a TypeError (`obj.forEach` is not a function). -/
theorem c3_each_dispatch (obj : Value) (f : List Value → Value) (log : CallLog)
    (h : truthy obj = true) :
    (∀ xs, obj = .arr xs →
        each obj (.jsfn f) log = .ok (.undef, log ++ xs.map (fun e => [e]))) ∧
    (arrayLikeB obj = false →
        each obj (.jsfn f) log = .ok (.undef, log ++ [[obj]])) ∧
    (arrayLikeB obj = true → isArray obj = false →
        each obj (.jsfn f) log = .error "TypeError: obj.forEach is not a function") := by
  refine ⟨?_, ?_, ?_⟩
  · rintro xs rfl
    simp [each, truthy, isArrayLike, isArray, eachArr_jsfn]
  · intro hal
    simp [each, h, isArrayLike_of_truthy _ h, hal, predCall]
  · intro hal hnarr
    cases obj with
    | undef => simp [truthy] at h
    | null => simp [truthy] at h
    | bool b => simp [arrayLikeB] at hal
    | num n => simp [arrayLikeB] at hal
    | str s => simp [arrayLikeB] at hal
    | arr xs => simp [isArray] at hnarr
    | obj fs => simp [each, h, isArrayLike_of_truthy _ h, hal]

theorem c3_witness :
    truthy (Value.arr [Value.num 7, Value.num 8]) = true ∧
    each (Value.arr [Value.num 7, Value.num 8]) (.jsfn (fun _ => .bool true)) [] =
      .ok (.undef, [[Value.num 7], [Value.num 8]]) :=
  ⟨rfl, (c3_each_dispatch (Value.arr [Value.num 7, Value.num 8])
    (fun _ => .bool true) [] rfl).1 [Value.num 7, Value.num 8] rfl⟩

/-- C6: for every truthy iterable, `some` returns `true` as soon as the
predicate is truthy on an element of the normalized source (short-circuit:
the call log stops at the first hit), returns `undefined` — never `false` —
when no element matches (including the empty source), and returns
`undefined` without any call when the predicate is absent (falsy). -/
theorem c6_some_short_circuit (iterable : Value) (f : List Value → Value) (log : CallLog)
    (h : truthy iterable = true) :
    (∀ i, i < sourceLen (normalizeSrc iterable) →
        truthy (f [getIndex (normalizeSrc iterable) i]) = true →
        (∀ j, j < i → truthy (f [getIndex (normalizeSrc iterable) j]) = false) →
        someJs iterable (.jsfn f) log =
          .ok (.bool true,
            log ++ (List.range (i + 1)).map
              (fun j => [getIndex (normalizeSrc iterable) j]))) ∧
    ((∀ i, i < sourceLen (normalizeSrc iterable) →
        truthy (f [getIndex (normalizeSrc iterable) i]) = false) →
        someJs iterable (.jsfn f) log =
          .ok (.undef,
            log ++ (List.range (sourceLen (normalizeSrc iterable))).map
              (fun j => [getIndex (normalizeSrc iterable) j]))) ∧
    (∀ v, truthy v = false → someJs iterable (.notfn v) log = .ok (.undef, log)) ∧
    (∀ out, someJs iterable (.jsfn f) log ≠ .ok (.bool false, out)) := by
  have hpairs : ∀ i e, (i, e) ∈ srcPairs (normalizeSrc iterable) →
      e = getIndex (normalizeSrc iterable) i ∧ i < sourceLen (normalizeSrc iterable) :=
    fun i e hm => mem_srcPairs hm
  refine ⟨?_, ?_, ?_, ?_⟩
  · intro i hi hhit hmiss
    rw [someJs_eq iterable _ log h, someLoop_jsfn]
    have hsplit : srcPairs (normalizeSrc iterable) =
        (List.range i).map (fun j => (j, getIndex (normalizeSrc iterable) j)) ++
          ((i, getIndex (normalizeSrc iterable) i) ::
            (List.range (sourceLen (normalizeSrc iterable) - (i + 1))).map
              (fun k => (i + 1 + k, getIndex (normalizeSrc iterable) (i + 1 + k)))) := by
      rw [srcPairs, show sourceLen (normalizeSrc iterable) =
        (i + 1) + (sourceLen (normalizeSrc iterable) - (i + 1)) from by omega,
        List.range_add, List.range_succ]
      simp [List.map_map, Function.comp]
    rw [hsplit, firstHit_append, firstHit_cons_hit]
    · simp only [List.map_append, List.map_map, Option.map_some']
      rw [List.range_succ]
      simp [Function.comp]
    · exact hhit
    · intro q hq
      simp only [List.mem_map, List.mem_range] at hq
      obtain ⟨j, hj, rfl⟩ := hq
      exact hmiss j hj
  · intro hmiss
    rw [someJs_eq iterable _ log h, someLoop_jsfn]
    rw [firstHit_none]
    · simp [srcPairs, List.map_map, Function.comp]
    · intro q hq
      have hq2 : (q.1, q.2) ∈ srcPairs (normalizeSrc iterable) := by simpa using hq
      obtain ⟨he, hlt⟩ := mem_srcPairs hq2
      rw [he]
      exact hmiss q.1 hlt
  · intro v hv
    rw [someJs_eq iterable _ log h, someLoop_falsy]
    simp [predTruthy, hv]
  · intro out heq
    rw [someJs_eq iterable _ log h, someLoop_jsfn] at heq
    cases hfh : (firstHit f (srcPairs (normalizeSrc iterable))).2 with
    | none =>
        rw [hfh] at heq
        simp only [Option.map_none'] at heq
        exact Value.noConfusion (Prod.mk.injEq .. ▸ (Except.ok.injEq .. ▸ heq)).1
    | some q =>
        rw [hfh] at heq
        simp only [Option.map_some'] at heq
        have := (Prod.mk.injEq .. ▸ (Except.ok.injEq .. ▸ heq)).1
        exact Bool.noConfusion (Value.bool.injEq .. ▸ this)

theorem c6_witness :
    truthy (Value.arr [Value.num 1, Value.num 2, Value.num 3]) = true ∧
    someJs (Value.arr [Value.num 1, Value.num 2, Value.num 3])
      (.jsfn (fun args => match args with
        | [Value.num v] => .bool (decide (5 < v))
        | _ => .undef)) [] =
      .ok (.undef, [[Value.num 1], [Value.num 2], [Value.num 3]]) := by
  refine ⟨rfl, ?_⟩
  have h := (c6_some_short_circuit (Value.arr [Value.num 1, Value.num 2, Value.num 3])
    (fun args => match args with
      | [Value.num v] => .bool (decide (5 < v))
      | _ => .undef) [] rfl).2.1
  have h2 := h (by
    intro i hi
    have hi3 : i < 3 := by simpa [normalizeSrc, arrayLikeB, sourceLen] using hi
    interval_cases i <;> rfl)
  simpa using h2

/-- The loops of `find` and `findIndex` are the same scan: they error
together, miss together (with the same log), and on a hit at index `i` the
`find` loop returns the element paired with `i`. -/
theorem findLoop_vs_findIndexLoop (p : Predicate) :
    ∀ (pairs : List (Nat × Value)) (log : CallLog),
      (match findIndexLoop p pairs log with
       | .error e => findLoop p pairs log = .error e
       | .ok (none, lg) => findLoop p pairs log = .ok (none, lg)
       | .ok (some i, lg) => ∃ e, (i, e) ∈ pairs ∧ findLoop p pairs log = .ok (some e, lg)) := by
  intro pairs
  induction pairs with
  | nil => intro log; simp [findLoop, findIndexLoop]
  | cons q rest ih =>
      intro log
      obtain ⟨i, e⟩ := q
      by_cases hp : predTruthy p = true
      · cases hc : predCall p [e] log with
        | error msg => simp [findLoop, findIndexLoop, hp, hc]
        | ok rl =>
            obtain ⟨r, log2⟩ := rl
            by_cases hr : truthy r = true
            · have hfi : findIndexLoop p ((i, e) :: rest) log = .ok (some i, log2) := by
                simp [findIndexLoop, hp, hc, hr]
              rw [hfi]
              exact ⟨e, by simp, by simp [findLoop, hp, hc, hr]⟩
            · have hr2 : truthy r = false := by simpa using hr
              have hfi : findIndexLoop p ((i, e) :: rest) log = findIndexLoop p rest log2 := by
                simp [findIndexLoop, hp, hc, hr2]
              have hfl : findLoop p ((i, e) :: rest) log = findLoop p rest log2 := by
                simp [findLoop, hp, hc, hr2]
              rw [hfi, hfl]
              have hrec := ih log2
              cases hcase : findIndexLoop p rest log2 with
              | error e2 => rw [hcase] at hrec; exact hrec
              | ok rl2 =>
                  obtain ⟨r2, lg⟩ := rl2
                  cases r2 with
                  | none => rw [hcase] at hrec; exact hrec
                  | some j =>
                      rw [hcase] at hrec
                      obtain ⟨e2, hm, hfind⟩ := hrec
                      exact ⟨e2, by simp [hm], hfind⟩
      · have hp2 : predTruthy p = false := by simpa using hp
        simp [findLoop_falsy p hp2, findIndexLoop_falsy p hp2]

/-- C10 (amended): find and findIndex scan identically: when findIndex
returns index i, find returns the element at position i of the normalized
source with the same call log; when findIndex returns undefined so does
find; they throw together; but find returns undefined either when findIndex
does or when the first matching element is itself undefined (an array-like
source can store undefined at a matched index), so the
"undefined in exactly the same cases" direction fails only through matched
undefined elements. -/
theorem c10_find_findIndex_coherent (iterable : Value) (p : Predicate) (log : CallLog) :
    (∀ i out, findIndex iterable p log = .ok (.num (Int.ofNat i), out) →
        find iterable p log = .ok (getIndex (normalizeSrc iterable) i, out)) ∧
    (∀ out, findIndex iterable p log = .ok (.undef, out) →
        find iterable p log = .ok (.undef, out)) ∧
    (∀ out, find iterable p log = .ok (.undef, out) →
        findIndex iterable p log = .ok (.undef, out) ∨
          ∃ i, findIndex iterable p log = .ok (.num (Int.ofNat i), out) ∧
            getIndex (normalizeSrc iterable) i = .undef) ∧
    (∀ e, find iterable p log = .error e ↔ findIndex iterable p log = .error e) := by
  cases ht : truthy iterable with
  | false =>
      have hFI : findIndex iterable p log = .ok (.undef, log) := by simp [findIndex, ht]
      have hFL : find iterable p log = .ok (.undef, log) := by simp [find, ht]
      refine ⟨?_, ?_, ?_, ?_⟩
      · intro i out heq
        rw [hFI] at heq
        simp at heq
      · intro out heq
        rw [hFI] at heq
        simp only [Except.ok.injEq, Prod.mk.injEq, true_and] at heq
        rw [hFL, heq]
      · intro out heq
        rw [hFL] at heq
        simp only [Except.ok.injEq, Prod.mk.injEq, true_and] at heq
        exact Or.inl (by rw [hFI, heq])
      · intro e
        rw [hFI, hFL]
  | true =>
      have hrel := findLoop_vs_findIndexLoop p (srcPairs (normalizeSrc iterable)) log
      cases hcase : findIndexLoop p (srcPairs (normalizeSrc iterable)) log with
      | error e =>
          rw [hcase] at hrel
          have hFI : findIndex iterable p log = .error e := by
            rw [findIndex_eq iterable p log ht, hcase]
          have hFL : find iterable p log = .error e := by
            rw [find_eq iterable p log ht, hrel]
          refine ⟨?_, ?_, ?_, ?_⟩
          · intro i out heq
            rw [hFI] at heq
            simp at heq
          · intro out heq
            rw [hFI] at heq
            simp at heq
          · intro out heq
            rw [hFL] at heq
            simp at heq
          · intro e2
            rw [hFI, hFL]
      | ok rl =>
          obtain ⟨r, lg⟩ := rl
          cases r with
          | none =>
              rw [hcase] at hrel
              have hFI : findIndex iterable p log = .ok (.undef, lg) := by
                rw [findIndex_eq iterable p log ht, hcase]
              have hFL : find iterable p log = .ok (.undef, lg) := by
                rw [find_eq iterable p log ht, hrel]
                rfl
              refine ⟨?_, ?_, ?_, ?_⟩
              · intro i out heq
                rw [hFI] at heq
                simp at heq
              · intro out heq
                rw [hFI] at heq
                simp only [Except.ok.injEq, Prod.mk.injEq, true_and] at heq
                rw [hFL, heq]
              · intro out heq
                rw [hFL] at heq
                simp only [Except.ok.injEq, Prod.mk.injEq, true_and] at heq
                exact Or.inl (by rw [hFI, heq])
              · intro e
                rw [hFI, hFL]
          | some j =>
              rw [hcase] at hrel
              obtain ⟨e2, hm, hfind⟩ := hrel
              obtain ⟨he2, _⟩ := mem_srcPairs hm
              have hFI : findIndex iterable p log = .ok (.num (Int.ofNat j), lg) := by
                rw [findIndex_eq iterable p log ht, hcase]
              have hFL : find iterable p log = .ok (e2, lg) := by
                rw [find_eq iterable p log ht, hfind]
                rfl
              refine ⟨?_, ?_, ?_, ?_⟩
              · intro i out heq
                rw [hFI] at heq
                simp only [Except.ok.injEq, Prod.mk.injEq, Value.num.injEq,
                  Int.ofNat_eq_coe, Nat.cast_inj] at heq
                obtain ⟨hji, hout⟩ := heq
                rw [hFL, he2, hji, hout]
              · intro out heq
                rw [hFI] at heq
                simp at heq
              · intro out heq
                rw [hFL] at heq
                simp only [Except.ok.injEq, Prod.mk.injEq] at heq
                refine Or.inr ⟨j, by rw [hFI, heq.2], ?_⟩
                rw [← he2, heq.1]
              · intro e
                rw [hFI, hFL]
                simp

theorem c10_counterexample :
    findIndex (Value.arr [Value.undef]) (.jsfn (fun _ => .bool true)) [] =
      .ok (.num 0, [[Value.undef]]) ∧
    find (Value.arr [Value.undef]) (.jsfn (fun _ => .bool true)) [] =
      .ok (.undef, [[Value.undef]]) :=
  ⟨rfl, rfl⟩

theorem c10_witness :
    findIndex (Value.arr [Value.num 4, Value.num 9])
      (.jsfn (fun args => match args with
        | [Value.num v] => .bool (decide (5 < v))
        | _ => .undef)) [] = .ok (.num 1, [[Value.num 4], [Value.num 9]]) ∧
    find (Value.arr [Value.num 4, Value.num 9])
      (.jsfn (fun args => match args with
        | [Value.num v] => .bool (decide (5 < v))
        | _ => .undef)) [] = .ok (.num 9, [[Value.num 4], [Value.num 9]]) :=
  ⟨rfl, (c10_find_findIndex_coherent (Value.arr [Value.num 4, Value.num 9])
    (.jsfn (fun args => match args with
      | [Value.num v] => .bool (decide (5 < v))
      | _ => .undef)) []).1 1 [[Value.num 4], [Value.num 9]] rfl⟩

/-- C5 counterexample: with an absent predicate, `map([1,2,3])` returns an
empty sequence (the result array is never written, so its length is 0), not
a sequence of the input's element count with unset slots. -/
theorem c5_counterexample :
    map (Value.arr [Value.num 1, Value.num 2, Value.num 3]) (.notfn .undef) [] =
      .ok (.arr [], []) ∧
    ¬ ∃ l : List Value,
        map (Value.arr [Value.num 1, Value.num 2, Value.num 3]) (.notfn .undef) [] =
          .ok (.arr l, []) ∧ l.length = 3 := by
  refine ⟨rfl, ?_⟩
  rintro ⟨l, hl, hlen⟩
  have h0 : (Except.ok (Value.arr ([] : List Value), ([] : CallLog)) :
      Except String (Value × CallLog)) = .ok (.arr l, []) := hl
  simp only [Except.ok.injEq, Prod.mk.injEq, Value.arr.injEq, and_true] at h0
  rw [← h0] at hlen
  simp at hlen

/-- C5 (amended): for every truthy obj with a function predicate, `map`
returns a new sequence: over an array-like obj the i-th slot is
`predicate(obj[i], i)` for i in `0..length-1`; over a non-array-like obj the
slots are `predicate(value, key)` for the own enumerable keys in enumeration
order, positionally indexed (keys are discarded from the output shape).
With an absent (falsy) predicate the result is the empty sequence and no
call is made. -/
theorem c5_map_shape (obj : Value) (f : List Value → Value) (log : CallLog)
    (h : truthy obj = true) :
    (arrayLikeB obj = true →
        map obj (.jsfn f) log =
          .ok (.arr ((List.range (sourceLen obj)).map
                (fun i => f [getIndex obj i, .num (Int.ofNat i)])),
              log ++ (List.range (sourceLen obj)).map
                (fun i => [getIndex obj i, .num (Int.ofNat i)]))) ∧
    (arrayLikeB obj = false →
        map obj (.jsfn f) log =
          .ok (.arr ((jsKeys obj).map (fun k => f [getMember obj k, .str k])),
              log ++ (jsKeys obj).map (fun k => [getMember obj k, .str k]))) ∧
    (∀ p, predTruthy p = false → map obj p log = .ok (.arr [], log)) := by
  refine ⟨?_, ?_, ?_⟩
  · intro hal
    simp [map, h, isArrayLike_of_truthy _ h, hal, mapPairs, mapLoop_jsfn,
      List.map_map, Function.comp]
  · intro hal
    simp [map, h, isArrayLike_of_truthy _ h, hal, mapPairs, keys_eq_jsKeys,
      mapLoop_jsfn, List.map_map, Function.comp]
  · intro p hp
    cases hal : arrayLikeB obj <;>
      simp [map, h, isArrayLike_of_truthy _ h, hal, mapLoop_falsy p hp]

theorem c5_witness :
    truthy (Value.obj [("a", Value.num 1), ("b", Value.num 2)]) = true ∧
    map (Value.obj [("a", Value.num 1), ("b", Value.num 2)])
      (.jsfn (fun args => match args with
        | [Value.num v, _] => .num (v * 10)
        | _ => .undef)) [] =
      .ok (.arr [Value.num 10, Value.num 20],
        [[Value.num 1, Value.str "a"], [Value.num 2, Value.str "b"]]) :=
  ⟨rfl, (c5_map_shape (Value.obj [("a", Value.num 1), ("b", Value.num 2)])
    (fun args => match args with
      | [Value.num v, _] => .num (v * 10)
      | _ => .undef) [] rfl).2.1 rfl⟩

/-- Walking an object's own keys and copying the kept ones (propositional
keep-condition) is filtering its field list, for duplicate-free keys. -/
theorem filterMap_keys_eq_filter_prop (P : String → Prop) [DecidablePred P]
    (fs : List (String × Value)) (g : String → Value)
    (hg : ∀ kv ∈ fs, g kv.1 = kv.2) :
    (fs.map (fun kv => kv.1)).filterMap (fun k => if P k then some (k, g k) else none) =
      fs.filter (fun kv => decide (P kv.1)) := by
  induction fs with
  | nil => simp
  | cons kv rest ih =>
      have hhd : g kv.1 = kv.2 := hg kv (by simp)
      by_cases hp : P kv.1 <;>
        simp [List.filterMap_cons, hp, hhd,
          ih (fun kv2 h2 => hg kv2 (by simp [h2]))]

/-- Copying every own key of a duplicate-free field list reproduces it. -/
theorem map_keys_eq_self (fs : List (String × Value)) (g : String → Value)
    (hg : ∀ kv ∈ fs, g kv.1 = kv.2) :
    (fs.map (fun kv => kv.1)).map (fun k => (k, g k)) = fs := by
  induction fs with
  | nil => simp
  | cons kv rest ih =>
      have hhd : g kv.1 = kv.2 := hg kv (by simp)
      simp only [List.map_cons, hhd, List.cons.injEq]
      exact ⟨trivial, ih (fun kv2 h2 => hg kv2 (by simp [h2]))⟩

theorem omitJs_truthy (obj fields : Value) (h : truthy obj = true) :
    omitJs obj fields =
      match omitKeys obj fields (jsKeys obj) with
      | .error e => .error e
      | .ok result => .ok (.obj result) := by
  simp [omitJs, h, filter_hasOwn_jsKeys]

theorem listIndexOf_str_neg (ks : List String) (k : String) :
    decide (listIndexOf (ks.map Value.str) (Value.str k) < 0) = !ks.contains k := by
  by_cases hk : k ∈ ks
  · have hnot : ¬ (listIndexOf (ks.map Value.str) (Value.str k) < 0) := by
      intro hneg
      have hall := (listIndexOf_neg_iff (ks.map Value.str) (Value.str k)).mp hneg
      have := hall (Value.str k) (List.mem_map.mpr ⟨k, hk, rfl⟩)
      simp [strictEq] at this
    simp [hnot, List.contains, List.elem_eq_mem, hk]
  · have hall : ∀ x ∈ ks.map Value.str, strictEq x (Value.str k) = false := by
      intro x hx
      obtain ⟨a, ha, rfl⟩ := List.mem_map.mp hx
      have : a ≠ k := fun he => hk (he ▸ ha)
      simp [strictEq, this]
    have := (listIndexOf_neg_iff (ks.map Value.str) (Value.str k)).mpr hall
    simp [this, List.contains, List.elem_eq_mem, hk]

theorem strIndexOf_neg_decide (s : String) (k : String) :
    decide (strIndexOf s k < 0) = !containsSub k.data s.data := by
  by_cases hc : containsSub k.data s.data = true
  · have : ¬ (strIndexOf s k < 0) := by
      intro hneg
      rw [(strIndexOf_neg_iff s k).mp hneg] at hc
      exact Bool.false_ne_true hc
    simp [this, hc]
  · have hc2 : containsSub k.data s.data = false := by simpa using hc
    have := (strIndexOf_neg_iff s k).mpr hc2
    simp [this, hc2]

/-- C4 counterexample: `omit({a:1, ab:2}, "ab")` drops the key `"a"` as
well, because a string `fields` uses substring `indexOf`; the claimed result
`{a:1}` (exactly the keys not listed) is not produced. -/
theorem c4_counterexample :
    omitJs (Value.obj [("a", Value.num 1), ("ab", Value.num 2)]) (Value.str "ab") =
      .ok (.obj []) ∧
    omitJs (Value.obj [("a", Value.num 1), ("ab", Value.num 2)]) (Value.str "ab") ≠
      .ok (.obj [("a", Value.num 1)]) := by
  refine ⟨rfl, ?_⟩
  intro hcon
  have h0 : (Except.ok (Value.obj ([] : List (String × Value))) : Except String Value) =
      .ok (.obj [("a", Value.num 1)]) := hcon
  simp at h0

/-- C4 (amended): for a truthy object obj with duplicate-free own keys,
`omit(obj, fields)` returns a new mapping (the embedding is pure, so obj is
untouched): a full shallow copy when fields is falsy; exactly the fields
whose key is not an element of fields when fields is a sequence of key
strings; and, when fields is a single key string, a field survives only if
its key does NOT occur as a substring of fields.  When obj is falsy the
result is undefined. -/
theorem c4_omit_spec :
    (∀ (v fields : Value), truthy v = false → omitJs v fields = .ok .undef) ∧
    (∀ (fs : List (String × Value)) (fields : Value),
        (fs.map (fun kv => kv.1)).Nodup → truthy fields = false →
        omitJs (.obj fs) fields = .ok (.obj fs)) ∧
    (∀ (fs : List (String × Value)) (ks : List String),
        (fs.map (fun kv => kv.1)).Nodup →
        omitJs (.obj fs) (.arr (ks.map Value.str)) =
          .ok (.obj (fs.filter (fun kv => !ks.contains kv.1)))) ∧
    (∀ (fs : List (String × Value)) (s : String),
        (fs.map (fun kv => kv.1)).Nodup → s ≠ "" →
        omitJs (.obj fs) (.str s) =
          .ok (.obj (fs.filter (fun kv => !containsSub kv.1.data s.data)))) := by
  have hmap : ∀ fs : List (String × Value), List.map (fun kv => kv.1) fs =
      fs.map (fun kv => kv.1) := fun _ => rfl
  refine ⟨?_, ?_, ?_, ?_⟩
  · intro v fields hv
    simp [omitJs, hv]
  · intro fs fields hnd hf
    have hg : ∀ kv ∈ fs, getMember (.obj fs) kv.1 = kv.2 := by
      intro kv hm
      have : (fs.map Prod.fst).Nodup := by
        simpa [Function.comp] using hnd
      exact getMember_of_nodup fs this kv hm
    rw [omitJs_truthy (.obj fs) fields rfl, jsKeys, omitKeys_falsy _ fields hf,
      map_keys_eq_self fs _ hg]
  · intro fs ks hnd
    have hg : ∀ kv ∈ fs, getMember (.obj fs) kv.1 = kv.2 := by
      intro kv hm
      have : (fs.map Prod.fst).Nodup := by
        simpa [Function.comp] using hnd
      exact getMember_of_nodup fs this kv hm
    have hidx : ∀ k, jsIndexOf (.arr (ks.map Value.str)) k =
        .ok (listIndexOf (ks.map Value.str) (.str k)) := fun k => rfl
    rw [omitJs_truthy (.obj fs) (.arr (ks.map Value.str)) rfl, jsKeys,
      omitKeys_pure (.obj fs) (.arr (ks.map Value.str))
        (fun k => listIndexOf (ks.map Value.str) (.str k)) rfl hidx,
      filterMap_keys_eq_filter_prop
        (fun k => listIndexOf (ks.map Value.str) (.str k) < 0) fs _ hg,
      List.filter_congr (fun kv _ => listIndexOf_str_neg ks kv.1)]
  · intro fs s hnd hs
    have hg : ∀ kv ∈ fs, getMember (.obj fs) kv.1 = kv.2 := by
      intro kv hm
      have : (fs.map Prod.fst).Nodup := by
        simpa [Function.comp] using hnd
      exact getMember_of_nodup fs this kv hm
    have htr : truthy (.str s) = true := by simpa [truthy] using hs
    have hidx : ∀ k, jsIndexOf (.str s) k = .ok (strIndexOf s k) := fun k => rfl
    rw [omitJs_truthy (.obj fs) (.str s) rfl, jsKeys,
      omitKeys_pure (.obj fs) (.str s) (fun k => strIndexOf s k) htr hidx,
      filterMap_keys_eq_filter_prop (fun k => strIndexOf s k < 0) fs _ hg,
      List.filter_congr (fun kv _ => strIndexOf_neg_decide s kv.1)]

theorem c4_witness :
    ([("a", Value.num 1), ("b", Value.num 2), ("c", Value.num 3)].map
      (fun kv => kv.1)).Nodup ∧
    omitJs (Value.obj [("a", Value.num 1), ("b", Value.num 2), ("c", Value.num 3)])
      (Value.arr [Value.str "b"]) =
      .ok (.obj [("a", Value.num 1), ("c", Value.num 3)]) :=
  ⟨by decide, c4_omit_spec.2.2.1
    [("a", Value.num 1), ("b", Value.num 2), ("c", Value.num 3)] ["b"] (by decide)⟩

/-- C7 counterexample: a truthy array-like non-array argument makes `union`
throw (the inner `each` calls `forEach` on it), so not every argument list
yields a sequence. -/
theorem c7_counterexample :
    union [Value.obj [("length", Value.num 0)]] =
      .error "TypeError: obj.forEach is not a function" := rfl

/-- C7 (amended): for every argument list whose arguments are each falsy, a
true array, or truthy non-array-like, `union` returns the first-occurrence
de-duplication (under strict equality) of the candidate stream — falsy
arguments skipped, a true array contributing its elements in order, any
other truthy argument contributing itself; the result has no two strictly
equal members and carries exactly the candidate values.  (A truthy
array-like non-array argument instead throws, as the counterexample
shows.) -/
theorem c7_union_dedup (args : List Value)
    (h : ∀ a ∈ args, truthy a = false ∨ isArray a = true ∨ arrayLikeB a = false) :
    union args = .ok (.arr (dedupFirst [] (unionCandidates args))) ∧
    (dedupFirst [] (unionCandidates args)).Pairwise (fun a b => strictEq a b = false) ∧
    (∀ x, x ∈ dedupFirst [] (unionCandidates args) ↔ x ∈ unionCandidates args) := by
  refine ⟨?_, ?_, ?_⟩
  · simp [union, truthy, unionLoop_spec args h []]
  · exact dedupFirst_pairwise _ [] List.Pairwise.nil
  · intro x
    rw [dedupFirst_mem]
    simp

theorem c7_witness :
    (∀ a ∈ [Value.arr [Value.num 1, Value.num 2], Value.arr [Value.num 2, Value.num 3],
        Value.arr [Value.num 3, Value.num 4]],
      truthy a = false ∨ isArray a = true ∨ arrayLikeB a = false) ∧
    union [Value.arr [Value.num 1, Value.num 2], Value.arr [Value.num 2, Value.num 3],
        Value.arr [Value.num 3, Value.num 4]] =
      .ok (.arr [Value.num 1, Value.num 2, Value.num 3, Value.num 4]) :=
  ⟨by decide, (c7_union_dedup
    [Value.arr [Value.num 1, Value.num 2], Value.arr [Value.num 2, Value.num 3],
      Value.arr [Value.num 3, Value.num 4]] (by decide)).1⟩

/-- C9: flatten is idempotent: whenever `flatten(args)` yields a sequence r,
flattening that result (as `flatten(flatten(...))` does, passing it as the
single argument) yields r again, because r contains no true-array element. -/
theorem c9_flatten_idempotent (args r : List Value) (h : flatten args = .arr r) :
    flatten [.arr r] = .arr r ∧ ∀ v ∈ r, isArray v = false := by
  have hr : r = flattenInternal [] args := by
    have h2 : (Value.arr (flattenInternal [] args) : Value) = Value.arr r := by
      rw [← h]
      simp [flatten, truthy]
    simpa using h2.symm
  subst hr
  refine ⟨?_, flattenInternal_no_arr args⟩
  have hflat : flattenInternal [] [Value.arr (flattenInternal [] args)] =
      flattenInternal [] (flattenInternal [] args) := by
    simp [flattenInternal]
  simp [flatten, truthy, hflat,
    flattenInternal_of_no_arr (flattenInternal [] args) (flattenInternal_no_arr args)]

theorem c9_witness :
    flatten [Value.arr [Value.num 1, Value.arr [Value.num 2]], Value.num 3] =
      .arr [Value.num 1, Value.num 2, Value.num 3] ∧
    flatten [Value.arr [Value.num 1, Value.num 2, Value.num 3]] =
      .arr [Value.num 1, Value.num 2, Value.num 3] := by
  have h : flatten [Value.arr [Value.num 1, Value.arr [Value.num 2]], Value.num 3] =
      .arr [Value.num 1, Value.num 2, Value.num 3] := by
    simp [flatten, truthy, flattenInternal]
  exact ⟨h, (c9_flatten_idempotent _ _ h).1⟩

/-- Injectivity of decimal rendering at the character-list level. -/
theorem jsNatStr_data_inj {a b : Nat}
    (h : (jsNatStr a).data = (jsNatStr b).data) : a = b := by
  have hdata : (natDigits a).map digitChar = (natDigits b).map digitChar := h
  have hdig := map_digitChar_inj (natDigits a) (natDigits b)
    (natDigits_bound a) (natDigits_bound b) hdata
  calc a = ofDigitsList (natDigits a) := (ofDigitsList_natDigits a).symm
    _ = ofDigitsList (natDigits b) := by rw [hdig]
    _ = b := ofDigitsList_natDigits b

/-- C8 counterexample: the first call `uniqueId("1")` and the eleventh call
`uniqueId()` of one process both return the string "11", so two calls within
a process can return the same string value (the claim's global uniqueness
fails across different prefixes). -/
theorem c8_counterexample :
    (runUniqueIds (some "1" :: List.replicate 10 none) 0).getD 0 "" = "11" ∧
    (runUniqueIds (some "1" :: List.replicate 10 none) 0).getD 10 "" = "11" ∧
    (0 : Nat) ≠ 10 := by
  refine ⟨by decide, by decide, by decide⟩

/-- C8 (amended): uniqueId pre-increments the single shared counter on
every call (so the first call of a process returns numeric suffix "1") and
returns the decimal string of the counter, prefixed by the prefix when the
latter is truthy; within one process, two calls that use the SAME prefix
never return the same string.  Calls with different prefixes can collide, as
the counterexample shows. -/
theorem c8_uniqueId_spec :
    (∀ (p : Option String) (c : Nat), (uniqueId p c).2 = c + 1) ∧
    ((uniqueId none 0).1 = "1") ∧
    (∀ (pres : List (Option String)) (c i j : Nat),
        i < pres.length → j < pres.length → i ≠ j →
        pres.getD i none = pres.getD j none →
        (runUniqueIds pres c).getD i "" ≠ (runUniqueIds pres c).getD j "") := by
  refine ⟨fun p c => rfl, by decide, ?_⟩
  intro pres c i j hi hj hij hpre heq
  rw [runUniqueIds_getD pres c i hi, runUniqueIds_getD pres c j hj, hpre] at heq
  have hci : c + i + 1 ≠ c + j + 1 := by omega
  cases hp : pres.getD j none with
  | none =>
      rw [hp] at heq
      have h2 : jsNatStr (c + i + 1) = jsNatStr (c + j + 1) := heq
      exact hci (jsNatStr_inj h2)
  | some p =>
      rw [hp] at heq
      by_cases hps : p = ""
      · subst hps
        have h2 : jsNatStr (c + i + 1) = jsNatStr (c + j + 1) := by
          simpa [uniqueId] using heq
        exact hci (jsNatStr_inj h2)
      · have hbne : (p != "") = true := by simpa using hps
        have h2 : p ++ jsNatStr (c + i + 1) = p ++ jsNatStr (c + j + 1) := by
          simpa [uniqueId, hbne] using heq
        have h3 : (jsNatStr (c + i + 1)).data = (jsNatStr (c + j + 1)).data :=
          List.append_cancel_left (congrArg String.data h2)
        exact hci (jsNatStr_data_inj h3)

theorem c8_witness :
    (0 : Nat) < 2 ∧ (1 : Nat) < 2 ∧ (0 : Nat) ≠ 1 ∧
    ([some "id_", some "id_"] : List (Option String)).getD 0 none =
      ([some "id_", some "id_"] : List (Option String)).getD 1 none ∧
    (runUniqueIds [some "id_", some "id_"] 0).getD 0 "" ≠
      (runUniqueIds [some "id_", some "id_"] 0).getD 1 "" :=
  ⟨by decide, by decide, by decide, by decide,
    c8_uniqueId_spec.2.2 [some "id_", some "id_"] 0 0 1
      (by decide) (by decide) (by decide) (by decide)⟩

/-- C2 counterexample: two inputs the claim says complete without throwing
do throw: `isArrayLike(null)` (reading `.length` of null) and an array-like
object without sequence methods passed to `filter` (no `forEach`); neither
is a non-function value in predicate position. -/
theorem c2_counterexample :
    isArrayLike Value.null = .error "TypeError: Cannot read properties of null" ∧
    filter (Value.obj [("length", Value.num 2)]) (.jsfn (fun _ => .bool true)) [] =
      .error "TypeError: obj.forEach is not a function" :=
  ⟨rfl, rfl⟩

/-- C2 (amended): with function predicates, the runtime faults of the
collection operations are exactly these: `isArrayLike` throws on `undefined`
and `null` (a `.length` read on them) and succeeds on everything else;
`each`, `filter` and `union` throw on a truthy array-like non-array (no
`forEach` method) and succeed on every other value (falsy, true array, or
truthy non-array-like); `map`, `find`, `findIndex` and `some` (index-based
loops, no `forEach`) never throw; `omit` never throws when `fields` is
falsy, an array, or a string.  (Non-function values in an unconditionally
invoked predicate position still throw, by `predCall`; `first`, `last`,
`size`, `flatten`, `has`, `isEmpty` are total functions of the embedding.) -/
theorem c2_fault_characterization (v : Value) (f : List Value → Value) (log : CallLog) :
    (isArrayLike .undef = .error "TypeError: Cannot read properties of undefined") ∧
    (isArrayLike .null = .error "TypeError: Cannot read properties of null") ∧
    (v ≠ .undef → v ≠ .null → isArrayLike v = .ok (arrayLikeB v)) ∧
    (truthy v = true → arrayLikeB v = true → isArray v = false →
        each v (.jsfn f) log = .error "TypeError: obj.forEach is not a function" ∧
        filter v (.jsfn f) log = .error "TypeError: obj.forEach is not a function" ∧
        union [v] = .error "TypeError: obj.forEach is not a function") ∧
    ((truthy v = false ∨ isArray v = true ∨ arrayLikeB v = false) →
        (∃ r, each v (.jsfn f) log = .ok r) ∧
        (∃ r, filter v (.jsfn f) log = .ok r) ∧
        (∃ r, union [v] = .ok r)) ∧
    ((∃ r, map v (.jsfn f) log = .ok r) ∧
     (∃ r, find v (.jsfn f) log = .ok r) ∧
     (∃ r, findIndex v (.jsfn f) log = .ok r) ∧
     (∃ r, someJs v (.jsfn f) log = .ok r)) ∧
    (∀ fields, (truthy fields = false ∨ isArray fields = true ∨ (∃ s, fields = .str s)) →
        ∃ r, omitJs v fields = .ok r) := by
  refine ⟨rfl, rfl, isArrayLike_of_ne v, ?_, ?_, ?_, ?_⟩
  · intro ht hal hnarr
    cases v with
    | undef => simp [truthy] at ht
    | null => simp [truthy] at ht
    | bool b => simp [arrayLikeB] at hal
    | num n => simp [arrayLikeB] at hal
    | str s => simp [arrayLikeB] at hal
    | arr xs => simp [isArray] at hnarr
    | obj fs =>
        refine ⟨?_, ?_, ?_⟩
        · simp [each, ht, isArrayLike_of_truthy _ ht, hal]
        · simp [filter, ht, isArrayLike_of_truthy _ ht, hal]
        · simp [union, truthy, unionLoop, ht, isArrayLike_of_truthy _ ht, hal]
  · intro hcase
    cases ht : truthy v with
    | false =>
        refine ⟨⟨(.undef, log), by simp [each, ht]⟩, ⟨(.undef, log), by simp [filter, ht]⟩,
          ⟨.arr [], ?_⟩⟩
        simp [union, truthy_arr, unionLoop, ht]
    | true =>
        have hcase2 : isArray v = true ∨ arrayLikeB v = false := by
          rcases hcase with h1 | h2 | h3
          · rw [ht] at h1; exact absurd h1 (by simp)
          · exact Or.inl h2
          · exact Or.inr h3
        rcases hcase2 with harr | hnal
        · cases v with
          | arr xs =>
              refine ⟨⟨(.undef, log ++ xs.map (fun e => [e])), ?_⟩,
                ⟨(.arr (xs.filter (fun e => truthy (f [e]))), log ++ xs.map (fun e => [e])), ?_⟩,
                ⟨.arr (dedupFirst [] xs), ?_⟩⟩
              · simp [each, truthy, isArrayLike, isArray, eachArr_jsfn]
              · simp [filter, truthy, isArrayLike, isArray, filterEach_jsfn]
              · simp [union, truthy_arr, unionLoop, isArrayLike, isArray, foldl_unionPush,
                  dedupFirst]
          | undef => simp [isArray] at harr
          | null => simp [isArray] at harr
          | bool b => simp [isArray] at harr
          | num n => simp [isArray] at harr
          | str s => simp [isArray] at harr
          | obj fs => simp [isArray] at harr
        · refine ⟨⟨(.undef, log ++ [[v]]), ?_⟩, ?_, ⟨.arr (unionPush [] v), ?_⟩⟩
          · simp [each, ht, isArrayLike_of_truthy _ ht, hnal, predCall]
          · refine ⟨(.arr (if truthy (f [v]) then [v] else []),
              log ++ [[v]]), ?_⟩
            by_cases hfv : truthy (f [v]) = true <;>
              simp [filter, ht, isArrayLike_of_truthy _ ht, hnal, filterEach, predTruthy,
                predCall, hfv]
          · simp [union, truthy_arr, unionLoop, ht, isArrayLike_of_truthy _ ht, hnal]
  · cases ht : truthy v with
    | false =>
        exact ⟨⟨(.undef, log), by simp [map, ht]⟩, ⟨(.undef, log), by simp [find, ht]⟩,
          ⟨(.undef, log), by simp [findIndex, ht]⟩, ⟨(.undef, log), by simp [someJs, ht]⟩⟩
    | true =>
        refine ⟨?_, ?_, ?_, ?_⟩
        · cases hm : map v (.jsfn f) log with
          | ok r => exact ⟨r, rfl⟩
          | error e =>
              simp [map, ht, isArrayLike_of_truthy _ ht, mapLoop_jsfn] at hm
        · cases hm : find v (.jsfn f) log with
          | ok r => exact ⟨r, rfl⟩
          | error e =>
              rw [find_eq v _ log ht, findLoop_jsfn] at hm
              exact Except.noConfusion hm
        · cases hm : findIndex v (.jsfn f) log with
          | ok r => exact ⟨r, rfl⟩
          | error e =>
              rw [findIndex_eq v _ log ht, findIndexLoop_jsfn] at hm
              exact Except.noConfusion hm
        · cases hm : someJs v (.jsfn f) log with
          | ok r => exact ⟨r, rfl⟩
          | error e =>
              rw [someJs_eq v _ log ht, someLoop_jsfn] at hm
              exact Except.noConfusion hm
  · intro fields hfields
    cases ht : truthy v with
    | false => exact ⟨.undef, by simp [omitJs, ht]⟩
    | true =>
        cases htf : truthy fields with
        | false =>
            refine ⟨.obj (((jsKeys v).filter (fun key => hasOwn v key)).map
              (fun k => (k, getMember v k))), ?_⟩
            simp [omitJs, ht, omitKeys_falsy _ fields htf]
        | true =>
            rcases hfields with h1 | h2 | ⟨s, rfl⟩
            · rw [htf] at h1; exact absurd h1 (by simp)
            · cases fields with
              | arr xs =>
                  refine ⟨.obj (((jsKeys v).filter (fun key => hasOwn v key)).filterMap
                    (fun k => if listIndexOf xs (.str k) < 0
                      then some (k, getMember v k) else none)), ?_⟩
                  simp [omitJs, ht,
                    omitKeys_pure v (.arr xs) (fun k => listIndexOf xs (.str k)) htf
                      (fun k => rfl)]
              | undef => simp [isArray] at h2
              | null => simp [isArray] at h2
              | bool b => simp [isArray] at h2
              | num n => simp [isArray] at h2
              | str s => simp [isArray] at h2
              | obj fs => simp [isArray] at h2
            · refine ⟨.obj (((jsKeys v).filter (fun key => hasOwn v key)).filterMap
                (fun k => if strIndexOf s k < 0 then some (k, getMember v k) else none)), ?_⟩
              simp [omitJs, ht,
                omitKeys_pure v (.str s) (fun k => strIndexOf s k) htf (fun k => rfl)]

theorem c2_witness :
    truthy (Value.obj [("length", Value.num 0)]) = true ∧
    arrayLikeB (Value.obj [("length", Value.num 0)]) = true ∧
    isArray (Value.obj [("length", Value.num 0)]) = false ∧
    each (Value.obj [("length", Value.num 0)]) (.jsfn (fun _ => .bool true)) [] =
      .error "TypeError: obj.forEach is not a function" :=
  ⟨rfl, rfl, rfl, ((c2_fault_characterization (Value.obj [("length", Value.num 0)])
    (fun _ => .bool true) []).2.2.2.1 rfl rfl rfl).1⟩
